import Mathlib

/-
Verification development for the driveway-monitor decision pipeline.

The definitions below are shallow embeddings of the Python sources:
  lib_geom.py  (Point, Box and their geometry operations),
  track.py     (TrackPrediction, Track, the Tracker association loop),
  ntfy.py      (notifications, the Notifier suppression / enrichment /
                photo-cache logic),
  web.py       (the mute and photo HTTP handlers).

Conventions of the embedding:
  * Python floats are modelled as exact rationals (ℚ); the claims under
    study are about the algorithms and their comparisons, not float
    rounding.
  * datetime values are rationals (seconds); timedelta(seconds=x) is x,
    timedelta(days=1) is 86400.
  * Python dicts are association lists that preserve insertion order
    (new keys are appended at the end), matching CPython semantics.
  * Fallible operations return Option / Except.  In particular
    Box.percent_intersection_with returns none exactly when the Python
    code would raise ZeroDivisionError, and the Tracker step returns
    Except so that such a crash propagates as in Python.
  * Opaque rasters (cv2 images) are represented by an abstract token
    type Image := Nat; they are only ever stored and handed to an
    encoder, never inspected.
  * External effects (the compiled CEL program, cv2.imencode, file
    reads and HTTP calls during enrichment) are passed in as explicit
    function / environment parameters describing their outcome.
-/

/- lib_geom.py: Point. -/
structure Point where
  x : ℚ
  y : ℚ
deriving DecidableEq

/- lib_geom.py: Box, a rectangle given by upper-left a and lower-right b. -/
structure Box where
  a : Point
  b : Point
deriving DecidableEq

def Box.w (s : Box) : ℚ := s.b.x - s.a.x

def Box.h (s : Box) : ℚ := s.b.y - s.a.y

def Box.area (s : Box) : ℚ := s.w * s.h

/- lib_geom.py lines 77-83.  The Python body divides by
   self_a + other_a - i_a with no guard; a zero divisor raises
   ZeroDivisionError, modelled here as none. -/
def Box.percent_intersection_with (s other : Box) : Option ℚ :=
  let self_a := (s.b.x - s.a.x) * (s.b.y - s.a.y)
  let other_a := (other.b.x - other.a.x) * (other.b.y - other.a.y)
  let i_a := max 0 (min s.b.x other.b.x - max s.a.x other.a.x) *
             max 0 (min s.b.y other.b.y - max s.a.y other.a.y)
  if self_a + other_a - i_a = 0 then none
  else some (i_a / (self_a + other_a - i_a))

/- The intersection area and the divisor of percent_intersection_with,
   named so that theorems can speak about them directly. -/
def Box.interArea (s other : Box) : ℚ :=
  max 0 (min s.b.x other.b.x - max s.a.x other.a.x) *
  max 0 (min s.b.y other.b.y - max s.a.y other.a.y)

def Box.unionArea (s other : Box) : ℚ :=
  s.area + other.area - s.interArea other

def Box.average_with (s other : Box) : Box :=
  { a := { x := (s.a.x + other.a.x) / 2, y := (s.a.y + other.a.y) / 2 }
    b := { x := (s.b.x + other.b.x) / 2, y := (s.b.y + other.b.y) / 2 } }

/- track.py: the image frame carried by a prediction is an opaque
   raster; the pipeline only stores it and hands it to a JPEG encoder. -/
def Image := Nat
deriving DecidableEq

/- track.py lines 24-32 (TrackPrediction); the event timestamp t is in
   seconds, is_track is the detector's own track-confirmation flag. -/
structure TrackPrediction where
  t : ℚ
  model_id : Int
  classification : String
  is_track : Bool
  box : Box
  image : Image
  id : String
deriving DecidableEq

/- track.py lines 48-55 (Track's mutable fields). -/
structure Track where
  predictions : List TrackPrediction
  best_image : Image
  best_image_coverage : ℚ
  is_model_track : Bool
  triggered_notification : Bool
  id : String
deriving DecidableEq

/- track.py lines 57-66. -/
def Track.from_prediction (p : TrackPrediction) : Track :=
  { predictions := [p]
    best_image := p.image
    best_image_coverage := (p.box.b.x - p.box.a.x) * (p.box.b.y - p.box.a.y)
    is_model_track := p.is_track
    triggered_notification := false
    id := p.id }

/- track.py lines 68-78; Track.predictions is never empty in reachable
   states, so the defaults below are never observed. -/
def Track.first_t (tr : Track) : ℚ :=
  match tr.predictions.head? with
  | some p => p.t
  | none => 0

def Track.last_t (tr : Track) : ℚ :=
  match tr.predictions.getLast? with
  | some p => p.t
  | none => 0

def Track.last_box (tr : Track) : Box :=
  match tr.predictions.getLast? with
  | some p => p.box
  | none => { a := { x := 0, y := 0 }, b := { x := 0, y := 0 } }

/- track.py lines 104-108: name_votes is a dict built in event order
   (so keys appear in first-seen order), and Python's max with a key
   function returns the first element attaining the maximum. -/
def bumpVote (votes : List (String × Nat)) (c : String) : List (String × Nat) :=
  match votes with
  | [] => [(c, 1)]
  | (k, n) :: rest => if k = c then (k, n + 1) :: rest else (k, n) :: bumpVote rest c

def maxVoteGo (best : String × Nat) (l : List (String × Nat)) : String × Nat :=
  match l with
  | [] => best
  | kn :: rest => if best.2 < kn.2 then maxVoteGo kn rest else maxVoteGo best rest

def maxVote (votes : List (String × Nat)) : String :=
  match votes with
  | [] => ""
  | kn :: rest => (maxVoteGo kn rest).1

def Track.classification (tr : Track) : String :=
  maxVote (tr.predictions.foldl (fun v p => bumpVote v p.classification) [])

/- track.py lines 110-111. -/
def Track.length_t (tr : Track) : ℚ := tr.last_t - tr.first_t

/- track.py lines 138-141: average of the last two boxes, or the single
   box when only one prediction exists. -/
def Track.last_2_box_avg (tr : Track) : Box :=
  if tr.predictions.length < 2 then tr.last_box
  else
    match tr.predictions.get? (tr.predictions.length - 2) with
    | some p => p.box.average_with tr.last_box
    | none => tr.last_box

/- track.py lines 143-150. -/
def Track.add_prediction (tr : Track) (p : TrackPrediction) : Track :=
  let image_coverage := (p.box.b.x - p.box.a.x) * (p.box.b.y - p.box.a.y)
  { tr with
    predictions := tr.predictions ++ [p]
    is_model_track := tr.is_model_track || p.is_track
    best_image :=
      if image_coverage > tr.best_image_coverage then p.image else tr.best_image
    best_image_coverage :=
      if image_coverage > tr.best_image_coverage then image_coverage
      else tr.best_image_coverage }

/- track.py lines 348-369 (TrackerConfig); only the fields the Tracker
   loop reads are modelled.  The compiled notify_track_cel program is
   passed to the step function separately as an abstract Track → Bool. -/
structure TrackerConfig where
  inactive_track_prune_s : ℚ := 1
  track_connect_min_overlap : ℚ := 1/5
  notify_classification_allowlist : Option (List String) := none
  notify_classification_blocklist : Option (List String) := none
  notify_min_track_length_s : ℚ := 1
  notify_min_track_length_s_per_classification : List (String × ℚ) := []

/- ntfy.py lines 112-119 (ObjectNotification), with the JPEG bytes as an
   opaque byte list. -/
structure ObjectNotification where
  t : ℚ
  classification : String
  event : String
  id : String
  jpeg_image : Option (List Nat)
  enriched_class : Option String := none
deriving DecidableEq

/- track.py lines 412-417: the prune list comprehension. -/
def pruneTracks (cfg : TrackerConfig) (now : ℚ) (ts : List Track) : List Track :=
  ts.filter (fun t => now - t.last_t < cfg.inactive_track_prune_s)

/- track.py lines 422-425: required overlap, inflated by 1.5 when the
   incoming classification differs from the track's majority one. -/
def overlapNeeded (cfg : TrackerConfig) (p : TrackPrediction) (t : Track) : ℚ :=
  if p.classification ≠ t.classification then cfg.track_connect_min_overlap * (3/2)
  else cfg.track_connect_min_overlap

/- track.py lines 420-438: the candidate loop.  The local variable
   track is None until the first candidate whose intersection exceeds
   its threshold, and that iteration ends in `break`, so the loop
   returns the first qualifying candidate in list order; the comparison
   against track.last_box() on lines 431-435 is unreachable.  The value
   returned is the split live = pre ++ [match] ++ post; computing a
   percent intersection with a zero divisor raises (Except.error). -/
def matchSplit (cfg : TrackerConfig) (p : TrackPrediction) :
    List Track → Except Unit (Option (List Track × Track × List Track))
  | [] => .ok none
  | t :: ts =>
    match t.last_2_box_avg.percent_intersection_with p.box with
    | none => .error ()
    | some candidate_ia =>
      if overlapNeeded cfg p t < candidate_ia then .ok (some ([], t, ts))
      else
        match matchSplit cfg p ts with
        | .error e => .error e
        | .ok none => .ok none
        | .ok (some (pre, m, post)) => .ok (some (t :: pre, m, post))

/- track.py lines 469-510: the notification-criteria checks, inlined in
   Tracker._run as a chain of `continue`s: allowlist, blocklist,
   minimum track length (with per-classification override), then the
   optional CEL rule.  A Python `if cfg.list_field and ...` guard is
   truthy only for a present, non-empty list. -/
def notifyCriteria (cfg : TrackerConfig) (cel : Option (Track → Bool))
    (track : Track) : Bool :=
  let allowTruthy := match cfg.notify_classification_allowlist with
    | some l => !l.isEmpty
    | none => false
  let blockTruthy := match cfg.notify_classification_blocklist with
    | some l => !l.isEmpty
    | none => false
  if allowTruthy &&
      !((cfg.notify_classification_allowlist.getD []).contains track.classification) then
    false
  else if blockTruthy &&
      ((cfg.notify_classification_blocklist.getD []).contains track.classification) then
    false
  else if track.length_t <
      ((cfg.notify_min_track_length_s_per_classification.lookup track.classification).getD
        cfg.notify_min_track_length_s) then
    false
  else
    match cel with
    | some prog => prog track
    | none => true

/- track.py lines 517-532: the emitted ObjectNotification; enc models
   cv2.imencode (its failure yields jpeg = None). -/
def mkObjectNotification (enc : Image → Option (List Nat)) (tr : Track) :
    ObjectNotification :=
  { t := tr.first_t
    classification := tr.classification
    event := "arrived in driveway"
    id := tr.id
    jpeg_image := enc tr.best_image }

/- track.py lines 404-533: one iteration of Tracker._run for one queued
   prediction.  Returns the new live-track list and the notification
   emitted this iteration, if any; .error models the process dying of an
   uncaught ZeroDivisionError inside the candidate loop. -/
def trackerStep (cfg : TrackerConfig) (cel : Option (Track → Bool))
    (enc : Image → Option (List Nat)) (s : List Track) (p : TrackPrediction) :
    Except Unit (List Track × Option ObjectNotification) :=
  let live := pruneTracks cfg p.t s
  match matchSplit cfg p live with
  | .error e => .error e
  | .ok found =>
    let pre := match found with
      | some (pre, _, _) => pre
      | none => live
    let track := match found with
      | some (_, t, _) => t.add_prediction p
      | none => Track.from_prediction p
    let post := match found with
      | some (_, _, post) => post
      | none => []
    if !track.is_model_track then .ok (pre ++ track :: post, none)
    else if track.triggered_notification then .ok (pre ++ track :: post, none)
    else if !notifyCriteria cfg cel track then .ok (pre ++ track :: post, none)
    else
      .ok (pre ++ { track with triggered_notification := true } :: post,
           some (mkObjectNotification enc track))

/- Iterating trackerStep over a queue of predictions.  The run stops
   when a step crashes; the first component is none in that case, and
   the emitted notifications up to the crash are returned either way. -/
def trackerRun (cfg : TrackerConfig) (cel : Option (Track → Bool))
    (enc : Image → Option (List Nat)) (s : List Track) :
    List TrackPrediction → Option (List Track) × List ObjectNotification
  | [] => (some s, [])
  | p :: ps =>
    match trackerStep cfg cel enc s p with
    | .error _ => (none, [])
    | .ok (s', o) =>
      let rest := trackerRun cfg cel enc s' ps
      (rest.1, o.toList ++ rest.2)

/- ntfy.py lines 68-72 (NtfyRecord, the photo-cache entry). -/
structure NtfyRecord where
  id : String
  expires_at : ℚ
  jpeg_image : Option (List Nat)
deriving DecidableEq

/- ntfy.py lines 75-82 (EnrichmentConfig); prompt_files is a dict from
   classification to prompt-file path. -/
structure EnrichmentConfig where
  enable : Bool := false
  endpoint : String := ""
  keep_alive : String := "240m"
  model : String := "llava"
  prompt_files : List (String × String) := []
  timeout_s : ℚ := 5
deriving DecidableEq

/- ntfy.py lines 85-98 (NtfyConfig); only the fields the modelled logic
   reads are kept. -/
structure NtfyConfig where
  enrichment : EnrichmentConfig := {}
  debounce_threshold_s : ℚ := 60

/- ntfy.py lines 137-146 (FeedbackType, FeedbackNotification). -/
inductive FeedbackType where
  | muted
  | unmuted
deriving DecidableEq

structure FeedbackNotification where
  type : FeedbackType
  key : String
  mute_seconds : Option Int := none
deriving DecidableEq

/- ntfy.py line 101: the two concrete notification variants that flow
   through the Notifier input queue. -/
inductive Notification where
  | object (o : ObjectNotification)
  | feedback (f : FeedbackNotification)
deriving DecidableEq

/- CPython dict assignment d[k] = v: replace in place if the key is
   present, otherwise append at the end. -/
def dictSet {α : Type} (m : List (String × α)) (k : String) (v : α) :
    List (String × α) :=
  match m with
  | [] => [(k, v)]
  | (k', v') :: rest => if k' = k then (k', v) :: rest else (k', v') :: dictSet rest k v

/- The mutable state of Notifier._run: the shared mute_until cell, the
   per-classification last-notification dict and the photo-cache dict. -/
structure NotifierState where
  mute_until : Option ℚ
  last_notification : List (String × ℚ)
  records : List (String × NtfyRecord)
deriving DecidableEq

/- ntfy.py lines 255-271 (Notifier._suppress): mute check first, then
   debounce; only a non-suppressed candidate writes last_notification. -/
def Notifier.suppress (cfg : NtfyConfig) (st : NotifierState)
    (n : ObjectNotification) : Bool × NotifierState :=
  let muteHit : Bool := match st.mute_until with
    | some mute_until => decide (n.t < mute_until)
    | none => false
  let debounceHit : Bool := match st.last_notification.lookup n.classification with
    | some last_ntfy => decide (n.t - last_ntfy < cfg.debounce_threshold_s)
    | none => false
  if muteHit then
    (true, st)
  else if debounceHit then
    (true, st)
  else
    (false, { st with last_notification := dictSet st.last_notification n.classification n.t })

/- Outcomes of the external effects performed by Notifier._enrich: the
   prompt-file read, the HTTP POST together with the envelope lookup
   parsed.get("response"), and json.loads of that nested string (as the
   string-valued fields the code reads).  requests.Timeout,
   RequestException and a non-JSON body are all caught by the code, so
   one error case suffices for the POST. -/
structure EnrichEnv where
  promptFileRead : Except Unit String
  httpResponseField : Except Unit (Option String)
  innerJson : Except Unit (List (String × String))

/- ntfy.py lines 273-347 (Notifier._enrich).  Every early return hands
   back the candidate unchanged; the final return copies every field and
   fills enriched_class.  A Python `if not x` guard on a string is
   truthy-based, hence the explicit empty-string checks. -/
def Notifier.enrich (cfg : NtfyConfig) (env : EnrichEnv)
    (n : ObjectNotification) : ObjectNotification :=
  if !cfg.enrichment.enable then n
  else match n.jpeg_image with
  | none => n
  | some jpeg =>
    if jpeg.isEmpty then n
    else match (cfg.enrichment.prompt_files.lookup n.classification).getD "" with
    | "" => n
    | _ =>
      match env.promptFileRead with
      | .error _ => n
      | .ok enrichment_prompt =>
        if enrichment_prompt = "" then n
        else match env.httpResponseField with
        | .error _ => n
        | .ok none => n
        | .ok (some model_resp_str) =>
          if model_resp_str = "" then n
          else match env.innerJson with
          | .error _ => n
          | .ok model_resp_parsed =>
            if (model_resp_parsed.lookup "type").isNone ∧
               (model_resp_parsed.lookup "error").isNone then n
            else
              let model_desc := (model_resp_parsed.lookup "desc").getD "unknown"
              if model_desc = "unknown" ∨ model_desc = "" then n
              else
                { t := n.t
                  classification := n.classification
                  event := n.event
                  id := n.id
                  jpeg_image := n.jpeg_image
                  enriched_class := some model_desc }

/- ntfy.py lines 400-406 (Notifier._prune_photos_cache): delete every
   record whose expires_at is before the wall-clock now. -/
def pruneRecords (now : ℚ) (records : List (String × NtfyRecord)) :
    List (String × NtfyRecord) :=
  records.filter (fun kv => !(kv.2.expires_at < now))

/- ntfy.py lines 349-398: one iteration of Notifier._run for one queued
   notification.  now is the wall clock read by the pruning helper.
   Returns the new state and the notification whose delivery was
   attempted (none when the candidate was suppressed).  A suppressed
   object candidate hits `continue`, skipping both the photo-cache
   insertion and _prune_photos_cache. -/
def notifierStep (cfg : NtfyConfig) (env : EnrichEnv) (now : ℚ)
    (st : NotifierState) (n : Notification) : NotifierState × Option Notification :=
  match n with
  | .object o =>
    let supp := Notifier.suppress cfg st o
    if supp.1 then (supp.2, none)
    else
      let st2 := { supp.2 with
        records := dictSet supp.2.records o.id
          { id := o.id, expires_at := o.t + 86400, jpeg_image := o.jpeg_image } }
      let o' := Notifier.enrich cfg env o
      ({ st2 with records := pruneRecords now st2.records }, some (.object o'))
  | .feedback f =>
    ({ st with records := pruneRecords now st.records }, some (.feedback f))

/- Python string suffix test and fname[:-4] slicing, modelled on the
   code-point list underlying the string (Python slices and suffix
   tests operate on code points). -/
def pyEndsWith (s suffix : String) : Bool :=
  suffix.data.isSuffixOf s.data

def pyDropRight (s : String) (n : Nat) : String :=
  String.mk (s.data.take (s.data.length - n))

/- web.py lines 94-110 (the photo endpoint). -/
inductive PhotoResponse where
  | invalidFilename
  | recordNotFound
  | recordHasNoPhoto
  | ok (bytes : List Nat)
deriving DecidableEq

def photoHandler (records : List (String × NtfyRecord)) (fname : String) :
    PhotoResponse :=
  if !(pyEndsWith fname ".jpg") then .invalidFilename
  else
    let key := pyDropRight fname 4
    match records.lookup key with
    | none => .recordNotFound
    | some photo_rec =>
      match photo_rec.jpeg_image with
      | none => .recordHasNoPhoto
      | some bytes => .ok bytes

/- Helper lemmas about percent_intersection_with. -/
theorem percent_intersection_with_def (s o : Box) :
    s.percent_intersection_with o =
      if s.unionArea o = 0 then none else some (s.interArea o / s.unionArea o) :=
  rfl

theorem interArea_nonneg (b1 b2 : Box) : 0 ≤ b1.interArea b2 :=
  mul_nonneg (le_max_left 0 _) (le_max_left 0 _)

theorem interArea_le_areas {b1 b2 : Box} (h : 0 < b1.interArea b2) :
    b1.interArea b2 ≤ b1.area ∧ b1.interArea b2 ≤ b2.area := by
  unfold Box.interArea at *
  set ox := min b1.b.x b2.b.x - max b1.a.x b2.a.x with hox
  set oy := min b1.b.y b2.b.y - max b1.a.y b2.a.y with hoy
  have hX : (0 : ℚ) ≤ max 0 ox := le_max_left _ _
  have hY : (0 : ℚ) ≤ max 0 oy := le_max_left _ _
  have hXpos : 0 < max 0 ox := by
    rcases mul_pos_iff.mp h with ⟨h1, _⟩ | ⟨h1, h2⟩
    · exact h1
    · exact absurd h2 (not_lt.mpr hY)
  have hYpos : 0 < max 0 oy := by
    rcases mul_pos_iff.mp h with ⟨_, h2⟩ | ⟨h1, _⟩
    · exact h2
    · exact absurd h1 (not_lt.mpr hX)
  have hoxpos : 0 < ox := by
    by_contra hc
    rw [max_eq_left (not_lt.mp hc)] at hXpos
    exact lt_irrefl _ hXpos
  have hoypos : 0 < oy := by
    by_contra hc
    rw [max_eq_left (not_lt.mp hc)] at hYpos
    exact lt_irrefl _ hYpos
  have hw1 : ox ≤ b1.w := sub_le_sub (min_le_left _ _) (le_max_left _ _)
  have hw2 : ox ≤ b2.w := sub_le_sub (min_le_right _ _) (le_max_right _ _)
  have hh1 : oy ≤ b1.h := sub_le_sub (min_le_left _ _) (le_max_left _ _)
  have hh2 : oy ≤ b2.h := sub_le_sub (min_le_right _ _) (le_max_right _ _)
  rw [max_eq_right hoxpos.le, max_eq_right hoypos.le]
  unfold Box.area
  constructor
  · exact mul_le_mul hw1 hh1 hoypos.le (le_trans hoxpos.le hw1)
  · exact mul_le_mul hw2 hh2 hoypos.le (le_trans hoxpos.le hw2)

theorem interArea_eq_zero_of_degenerate {b1 : Box} (b2 : Box)
    (h : b1.w = 0 ∨ b1.h = 0) : b1.interArea b2 = 0 := by
  unfold Box.interArea
  rcases h with h | h
  · have hox : min b1.b.x b2.b.x - max b1.a.x b2.a.x ≤ 0 := by
      have h1 : min b1.b.x b2.b.x ≤ b1.b.x := min_le_left _ _
      have h2 : b1.a.x ≤ max b1.a.x b2.a.x := le_max_left _ _
      have hw : b1.b.x = b1.a.x := by
        have := h; unfold Box.w at this; linarith
      linarith
    rw [max_eq_left hox, zero_mul]
  · have hoy : min b1.b.y b2.b.y - max b1.a.y b2.a.y ≤ 0 := by
      have h1 : min b1.b.y b2.b.y ≤ b1.b.y := min_le_left _ _
      have h2 : b1.a.y ≤ max b1.a.y b2.a.y := le_max_left _ _
      have hw : b1.b.y = b1.a.y := by
        have := h; unfold Box.h at this; linarith
      linarith
    rw [max_eq_left hoy, mul_zero]

/-- Claim C10: Box.percent_intersection_with divides the intersection
area by the union area (self area + other area − intersection area)
without guarding the divisor: for every pair of boxes whose union area
is positive it is total and returns a value in [0,1]; for two zero-area
boxes (each with zero width or zero height) the divisor is zero and the
operation raises a division error (modelled as none). -/
theorem claim_C10 (b1 b2 : Box) :
    (0 < b1.unionArea b2 →
      b1.percent_intersection_with b2 =
        some (b1.interArea b2 / b1.unionArea b2) ∧
      0 ≤ b1.interArea b2 / b1.unionArea b2 ∧
      b1.interArea b2 / b1.unionArea b2 ≤ 1) ∧
    ((b1.w = 0 ∨ b1.h = 0) → (b2.w = 0 ∨ b2.h = 0) →
      b1.unionArea b2 = 0 ∧ b1.percent_intersection_with b2 = none) := by
  constructor
  · intro hpos
    have hne : b1.unionArea b2 ≠ 0 := ne_of_gt hpos
    refine ⟨?_, ?_, ?_⟩
    · rw [percent_intersection_with_def, if_neg hne]
    · exact div_nonneg (interArea_nonneg b1 b2) (le_of_lt hpos)
    · rw [div_le_one hpos]
      rcases eq_or_lt_of_le (interArea_nonneg b1 b2) with hz | hgt
      · rw [← hz]; exact le_of_lt hpos
      · have hle := interArea_le_areas hgt
        unfold Box.unionArea
        linarith [hle.1, hle.2]
  · intro h1 h2
    have hi : b1.interArea b2 = 0 := interArea_eq_zero_of_degenerate b2 h1
    have ha1 : b1.area = 0 := by
      unfold Box.area
      rcases h1 with h | h
      · rw [h, zero_mul]
      · rw [h, mul_zero]
    have ha2 : b2.area = 0 := by
      unfold Box.area
      rcases h2 with h | h
      · rw [h, zero_mul]
      · rw [h, mul_zero]
    have hu : b1.unionArea b2 = 0 := by
      unfold Box.unionArea
      rw [hi, ha1, ha2]
      ring
    exact ⟨hu, by rw [percent_intersection_with_def, if_pos hu]⟩

/-- Witness for claim C10 at concrete boxes: the overlapping unit-ish
pair has positive union area and a percent intersection in [0,1], and
the two degenerate boxes produce a zero divisor and a raised error. -/
theorem claim_C10_witness :
    (Box.percent_intersection_with ⟨⟨0, 0⟩, ⟨2, 2⟩⟩ ⟨⟨1, 1⟩, ⟨3, 3⟩⟩ =
        some (Box.interArea ⟨⟨0, 0⟩, ⟨2, 2⟩⟩ ⟨⟨1, 1⟩, ⟨3, 3⟩⟩ /
              Box.unionArea ⟨⟨0, 0⟩, ⟨2, 2⟩⟩ ⟨⟨1, 1⟩, ⟨3, 3⟩⟩) ∧
      0 ≤ Box.interArea ⟨⟨0, 0⟩, ⟨2, 2⟩⟩ ⟨⟨1, 1⟩, ⟨3, 3⟩⟩ /
          Box.unionArea ⟨⟨0, 0⟩, ⟨2, 2⟩⟩ ⟨⟨1, 1⟩, ⟨3, 3⟩⟩ ∧
      Box.interArea ⟨⟨0, 0⟩, ⟨2, 2⟩⟩ ⟨⟨1, 1⟩, ⟨3, 3⟩⟩ /
          Box.unionArea ⟨⟨0, 0⟩, ⟨2, 2⟩⟩ ⟨⟨1, 1⟩, ⟨3, 3⟩⟩ ≤ 1) ∧
    (Box.unionArea ⟨⟨0, 0⟩, ⟨0, 5⟩⟩ ⟨⟨1, 1⟩, ⟨1, 9⟩⟩ = 0 ∧
      Box.percent_intersection_with ⟨⟨0, 0⟩, ⟨0, 5⟩⟩ ⟨⟨1, 1⟩, ⟨1, 9⟩⟩ = none) :=
  ⟨(claim_C10 ⟨⟨0, 0⟩, ⟨2, 2⟩⟩ ⟨⟨1, 1⟩, ⟨3, 3⟩⟩).1
      (by norm_num [Box.unionArea, Box.interArea, Box.area, Box.w, Box.h]),
   (claim_C10 ⟨⟨0, 0⟩, ⟨0, 5⟩⟩ ⟨⟨1, 1⟩, ⟨1, 9⟩⟩).2
      (by norm_num [Box.w]) (by norm_num [Box.w])⟩

/-- Claim C3: for every Object notification candidate, the Dispatcher's
suppression decision checks mute first and debounce second: the
candidate is suppressed if mute_until is set and the candidate's
timestamp is earlier than it, else suppressed if a previous
notification of the same classification was sent less than
debounce_threshold_s before the candidate's timestamp; a suppressed
candidate updates no dispatcher state, and a non-suppressed candidate
updates the last-sent time for its classification (before delivery is
attempted, which in Notifier._run happens only after _suppress
returns). -/
theorem claim_C3 (cfg : NtfyConfig) (st : NotifierState) (n : ObjectNotification) :
    ((Notifier.suppress cfg st n).1 = true ↔
      ((∃ mu, st.mute_until = some mu ∧ n.t < mu) ∨
       ((∀ mu, st.mute_until = some mu → ¬ n.t < mu) ∧
        ∃ last, st.last_notification.lookup n.classification = some last ∧
          n.t - last < cfg.debounce_threshold_s))) ∧
    ((Notifier.suppress cfg st n).1 = true → (Notifier.suppress cfg st n).2 = st) ∧
    ((Notifier.suppress cfg st n).1 = false →
      (Notifier.suppress cfg st n).2 =
        { st with last_notification := dictSet st.last_notification n.classification n.t }) := by
  rcases hmu : st.mute_until with _ | mu <;>
    rcases hlast : List.lookup n.classification st.last_notification with _ | last
  · simp [Notifier.suppress, hmu, hlast]
  · by_cases hd : n.t - last < cfg.debounce_threshold_s <;>
      simp [Notifier.suppress, hmu, hlast, hd]
  · by_cases hm : n.t < mu <;> simp [Notifier.suppress, hmu, hlast, hm]
  · by_cases hm : n.t < mu <;>
      by_cases hd : n.t - last < cfg.debounce_threshold_s <;>
      simp [Notifier.suppress, hmu, hlast, hm, hd]
    exact not_lt.mp hm

/-- Witness for claim C3: a candidate timestamped before the mute
window's end is suppressed and leaves the dispatcher state unchanged. -/
theorem claim_C3_witness :
    (Notifier.suppress {} { mute_until := some 200, last_notification := [], records := [] }
        { t := 50, classification := "car", event := "e", id := "n1", jpeg_image := none }).2 =
      { mute_until := some 200, last_notification := [], records := [] } :=
  (claim_C3 {} { mute_until := some 200, last_notification := [], records := [] }
      { t := 50, classification := "car", event := "e", id := "n1", jpeg_image := none }).2.1
    (by norm_num [Notifier.suppress])

/- Spec-side formulations of the four notification-criteria checks, one
   per sentence of the specification, to be compared with the inlined
   source code chain notifyCriteria. -/
def specAllowlistPass (cfg : TrackerConfig) (tr : Track) : Bool :=
  match cfg.notify_classification_allowlist with
  | none => true
  | some l => l.isEmpty || l.contains tr.classification

def specBlocklistPass (cfg : TrackerConfig) (tr : Track) : Bool :=
  match cfg.notify_classification_blocklist with
  | none => true
  | some l => l.isEmpty || !(l.contains tr.classification)

def specMinDurationPass (cfg : TrackerConfig) (tr : Track) : Bool :=
  decide (((cfg.notify_min_track_length_s_per_classification.lookup
      tr.classification).getD cfg.notify_min_track_length_s) ≤ tr.length_t)

def specCelPass (cel : Option (Track → Bool)) (tr : Track) : Bool :=
  match cel with
  | none => true
  | some prog => prog tr

/-- Claim C4: the notification-criteria evaluation is a pure function
of the track that returns true exactly when every configured check
passes (allowlist, blocklist, minimum duration, custom rule — the
source evaluates them in that order, short-circuiting via `continue`);
an unset check always passes, and the minimum-duration check passes
exactly when the track's span (last event time minus first event time)
is at least the per-classification minimum, falling back to the default
minimum when the classification is absent from the lookup table. -/
theorem claim_C4 (cfg : TrackerConfig) (cel : Option (Track → Bool)) (tr : Track) :
    (notifyCriteria cfg cel tr = true ↔
      (specAllowlistPass cfg tr = true ∧ specBlocklistPass cfg tr = true ∧
       specMinDurationPass cfg tr = true ∧ specCelPass cel tr = true)) ∧
    (specMinDurationPass cfg tr = true ↔
      ((cfg.notify_min_track_length_s_per_classification.lookup
          tr.classification).getD cfg.notify_min_track_length_s) ≤ tr.length_t) ∧
    (cfg.notify_min_track_length_s_per_classification.lookup tr.classification = none →
      specMinDurationPass cfg tr = decide (cfg.notify_min_track_length_s ≤ tr.length_t)) ∧
    (cfg.notify_classification_allowlist = none → specAllowlistPass cfg tr = true) ∧
    (cfg.notify_classification_blocklist = none → specBlocklistPass cfg tr = true) ∧
    (cel = none → specCelPass cel tr = true) := by
  refine ⟨?_, ?_, ?_, ?_, ?_, ?_⟩
  · unfold notifyCriteria specAllowlistPass specBlocklistPass specMinDurationPass specCelPass
    rcases ha : cfg.notify_classification_allowlist with _ | la <;>
      rcases hb : cfg.notify_classification_blocklist with _ | lb <;>
      rcases hc : cel with _ | prog <;>
      by_cases hlen : tr.length_t <
        ((cfg.notify_min_track_length_s_per_classification.lookup
            tr.classification).getD cfg.notify_min_track_length_s) <;>
      simp_all [not_lt, List.isEmpty_iff]
  · simp [specMinDurationPass]
  · intro h
    simp [specMinDurationPass, h]
  · intro h
    simp [specAllowlistPass, h]
  · intro h
    simp [specBlocklistPass, h]
  · intro h
    simp [specCelPass, h]

/-- Witness for claim C4: with the default configuration (no allowlist,
no blocklist, no per-classification overrides, no rule) the allowlist
check passes and the minimum-duration check falls back to the default
minimum. -/
theorem claim_C4_witness :
    specAllowlistPass {}
        (Track.from_prediction
          { t := 0, model_id := 1, classification := "car", is_track := true,
            box := ⟨⟨0, 0⟩, ⟨1, 1⟩⟩, image := (0 : Nat), id := "e1" }) = true ∧
    specMinDurationPass {}
        (Track.from_prediction
          { t := 0, model_id := 1, classification := "car", is_track := true,
            box := ⟨⟨0, 0⟩, ⟨1, 1⟩⟩, image := (0 : Nat), id := "e1" }) =
      decide ((({} : TrackerConfig).notify_min_track_length_s ≤
        (Track.from_prediction
          { t := 0, model_id := 1, classification := "car", is_track := true,
            box := ⟨⟨0, 0⟩, ⟨1, 1⟩⟩, image := (0 : Nat), id := "e1" }).length_t)) :=
  ⟨(claim_C4 {} none
      (Track.from_prediction
        { t := 0, model_id := 1, classification := "car", is_track := true,
          box := ⟨⟨0, 0⟩, ⟨1, 1⟩⟩, image := (0 : Nat), id := "e1" })).2.2.2.1 rfl,
   (claim_C4 {} none
      (Track.from_prediction
        { t := 0, model_id := 1, classification := "car", is_track := true,
          box := ⟨⟨0, 0⟩, ⟨1, 1⟩⟩, image := (0 : Nat), id := "e1" })).2.2.1 rfl⟩

/-- Claim C9: for every Object candidate, enrichment never fails
dispatch: under any failure (enrichment disabled, no image, no
configured prompt, unreadable or empty prompt file, request timeout,
transport error, non-JSON or field-missing response, model-reported
error, empty or "unknown" description) Notifier._enrich returns the
candidate unchanged, and on success it returns a candidate identical in
timestamp, classification, event, id and image, differing only in the
enriched description field. -/
theorem claim_C9 (cfg : NtfyConfig) (env : EnrichEnv) (n : ObjectNotification) :
    (Notifier.enrich cfg env n).t = n.t ∧
    (Notifier.enrich cfg env n).classification = n.classification ∧
    (Notifier.enrich cfg env n).event = n.event ∧
    (Notifier.enrich cfg env n).id = n.id ∧
    (Notifier.enrich cfg env n).jpeg_image = n.jpeg_image ∧
    (Notifier.enrich cfg env n = n ∨
      ∃ d, d ≠ "unknown" ∧ d ≠ "" ∧
        Notifier.enrich cfg env n = { n with enriched_class := some d }) := by
  have key : Notifier.enrich cfg env n = n ∨
      ∃ d, d ≠ "unknown" ∧ d ≠ "" ∧
        Notifier.enrich cfg env n = { n with enriched_class := some d } := by
    unfold Notifier.enrich
    repeat' split
    all_goals try exact Or.inl rfl
    all_goals dsimp only
    all_goals repeat' split
    all_goals try exact Or.inl rfl
    rename_i hneg
    push_neg at hneg
    exact Or.inr ⟨_, hneg.1, hneg.2, rfl⟩
  rcases key with h | ⟨d, hd1, hd2, h⟩
  · simp [h]
  · exact ⟨by simp [h], by simp [h], by simp [h], by simp [h], by simp [h],
      Or.inr ⟨d, hd1, hd2, h⟩⟩

/- Dictionary and photo-cache helper lemmas shared by the Dispatcher
   theorems. -/
theorem suppress_records (cfg : NtfyConfig) (st : NotifierState) (n : ObjectNotification) :
    (Notifier.suppress cfg st n).2.records = st.records := by
  unfold Notifier.suppress
  dsimp only
  repeat' split
  all_goals rfl

theorem lookup_none_of_forall_ne {α : Type} {l : List (String × α)} {k : String}
    (h : ∀ kv ∈ l, kv.1 ≠ k) : l.lookup k = none := by
  induction l with
  | nil => rfl
  | cons kv rest ih =>
    rcases kv with ⟨k1, v1⟩
    have hk : k1 ≠ k := h (k1, v1) (List.mem_cons_self _ _)
    have hbeq : (k == k1) = false := beq_false_of_ne (fun he => hk he.symm)
    simp only [List.lookup_cons, hbeq]
    exact ih (fun kv hm => h kv (List.mem_cons_of_mem _ hm))

theorem lookup_filter_none {α : Type} {recs : List (String × α)} {key : String} {r : α}
    (hnd : (recs.map Prod.fst).Nodup) (hl : recs.lookup key = some r)
    {p : String × α → Bool} (hp : p (key, r) = false) :
    (recs.filter p).lookup key = none := by
  induction recs with
  | nil => simp at hl
  | cons kv rest ih =>
    rcases kv with ⟨k1, v1⟩
    by_cases hk : key = k1
    · subst hk
      simp only [List.lookup_cons, beq_self_eq_true] at hl
      injection hl with hv
      subst hv
      have hnotmem : key ∉ rest.map Prod.fst := by
        simp only [List.map_cons, List.nodup_cons] at hnd
        exact hnd.1
      have hrest : ∀ kv ∈ rest.filter p, kv.1 ≠ key := by
        intro kv hm he
        exact hnotmem (List.mem_map.mpr ⟨kv, List.mem_of_mem_filter hm, he⟩)
      rw [List.filter_cons, hp]
      exact lookup_none_of_forall_ne hrest
    · simp only [List.lookup_cons, beq_false_of_ne hk] at hl
      have hnd2 : (rest.map Prod.fst).Nodup := by
        simp only [List.map_cons, List.nodup_cons] at hnd
        exact hnd.2
      have hres := ih hnd2 hl
      rw [List.filter_cons]
      by_cases hpk : p (k1, v1) = true
      · rw [if_pos hpk]
        simp only [List.lookup_cons, beq_false_of_ne hk]
        exact hres
      · rw [if_neg hpk]
        exact hres

theorem dictSet_lookup_other {α : Type} {m : List (String × α)} {k k2 : String} {v : α}
    (h : k2 ≠ k) : (dictSet m k v).lookup k2 = m.lookup k2 := by
  induction m with
  | nil =>
    show List.lookup k2 [(k, v)] = List.lookup k2 []
    simp [List.lookup_cons, beq_false_of_ne h]
  | cons kv rest ih =>
    rcases kv with ⟨k1, v1⟩
    have hd : dictSet ((k1, v1) :: rest) k v =
        if k1 = k then (k1, v) :: rest else (k1, v1) :: dictSet rest k v := rfl
    rw [hd]
    by_cases hk1 : k1 = k
    · rw [if_pos hk1]
      have hk2 : k2 ≠ k1 := fun he => h (he.trans hk1)
      simp only [List.lookup_cons, beq_false_of_ne hk2]
    · rw [if_neg hk1]
      by_cases hk2 : k2 = k1
      · subst hk2
        simp only [List.lookup_cons, beq_self_eq_true]
      · simp only [List.lookup_cons, beq_false_of_ne hk2]
        exact ih

theorem dictSet_keys {α : Type} (m : List (String × α)) (k : String) (v : α) :
    (dictSet m k v).map Prod.fst =
      if k ∈ m.map Prod.fst then m.map Prod.fst else m.map Prod.fst ++ [k] := by
  induction m with
  | nil => simp [dictSet]
  | cons kv rest ih =>
    rcases kv with ⟨k1, v1⟩
    have hd : dictSet ((k1, v1) :: rest) k v =
        if k1 = k then (k1, v) :: rest else (k1, v1) :: dictSet rest k v := rfl
    rw [hd]
    by_cases hk1 : k1 = k
    · subst hk1
      rw [if_pos rfl, if_pos (by simp)]
      simp
    · rw [if_neg hk1, List.map_cons, List.map_cons, ih]
      by_cases hmem : k ∈ rest.map Prod.fst
      · rw [if_pos hmem, if_pos (by simp [hmem])]
      · rw [if_neg hmem, if_neg]
        · simp
        · simp only [List.mem_cons]
          push_neg
          exact ⟨fun he => hk1 he.symm, hmem⟩

theorem dictSet_keys_nodup {α : Type} {m : List (String × α)} (hnd : (m.map Prod.fst).Nodup)
    (k : String) (v : α) : ((dictSet m k v).map Prod.fst).Nodup := by
  rw [dictSet_keys]
  by_cases hmem : k ∈ m.map Prod.fst
  · rw [if_pos hmem]
    exact hnd
  · rw [if_neg hmem]
    simp [List.nodup_append, hnd, hmem]

/-- Claim C5 counterexample: a suppressed candidate (here muted:
mute_until 200, candidate timestamp 50) hits `continue` in
Notifier._run and skips _prune_photos_cache, so the PhotoCacheEntry "x"
whose expiry 0 lies in the past (wall clock 100) is still in the cache
after the candidate is processed, and the photo endpoint still serves
its bytes rather than a not-found error — refuting the claim's "whether
delivered or suppressed". -/
theorem claim_C5_counterexample :
    notifierStep {} ⟨.error (), .error (), .error ()⟩ 100
      { mute_until := some 200, last_notification := [],
        records := [("x", { id := "x", expires_at := 0, jpeg_image := some [7] })] }
      (.object { t := 50, classification := "car", event := "e", id := "n1",
                 jpeg_image := none }) =
      ({ mute_until := some 200, last_notification := [],
         records := [("x", { id := "x", expires_at := 0, jpeg_image := some [7] })] },
       none) ∧
    (0 : ℚ) < 100 ∧
    photoHandler [("x", { id := "x", expires_at := 0, jpeg_image := some [7] })] "x.jpg" =
      .ok [7] := by
  refine ⟨?_, by norm_num, ?_⟩
  · norm_num [notifierStep, Notifier.suppress]
  · rfl

/-- Claim C5 (amended): after the Dispatcher finishes processing a
candidate whose delivery was attempted (feedback, or a non-suppressed
object candidate), every PhotoCacheEntry whose expiry timestamp is in
the past has been removed from the cache, so a photo lookup for a key
absent from the cache returns a not-found error; moreover an expired
entry other than the candidate's own id is really gone afterwards.  A
suppressed object candidate, by contrast, leaves the photo cache
untouched (the pruning step is skipped by `continue`). -/
theorem claim_C5_amended (cfg : NtfyConfig) (env : EnrichEnv) (now : ℚ)
    (st : NotifierState) (n : Notification) :
    ((notifierStep cfg env now st n).2.isSome = true →
      ∀ kv ∈ (notifierStep cfg env now st n).1.records, ¬ kv.2.expires_at < now) ∧
    (∀ fname key, pyEndsWith fname ".jpg" = true → pyDropRight fname 4 = key →
      (notifierStep cfg env now st n).1.records.lookup key = none →
      photoHandler (notifierStep cfg env now st n).1.records fname = .recordNotFound) ∧
    (∀ o, n = .object o → (st.records.map Prod.fst).Nodup →
      (notifierStep cfg env now st n).2.isSome = true →
      ∀ key r0, key ≠ o.id → st.records.lookup key = some r0 → r0.expires_at < now →
      (notifierStep cfg env now st n).1.records.lookup key = none) ∧
    (∀ o, n = .object o → (notifierStep cfg env now st n).2 = none →
      (notifierStep cfg env now st n).1.records = st.records) := by
  have hphoto : ∀ (recs : List (String × NtfyRecord)) (fname key : String),
      pyEndsWith fname ".jpg" = true → pyDropRight fname 4 = key →
      recs.lookup key = none → photoHandler recs fname = .recordNotFound := by
    intro recs fname key he hdrop hlookup
    unfold photoHandler
    rw [he]
    dsimp only
    rw [hdrop, hlookup]
    simp
  refine ⟨?_, fun fname key he hdrop hl => hphoto _ fname key he hdrop hl, ?_, ?_⟩
  · intro hdel kv hm
    rcases n with o | f
    · by_cases hsup : (Notifier.suppress cfg st o).1 = true
      · simp [notifierStep, hsup] at hdel
      · simp only [notifierStep, Bool.not_eq_true] at hm hdel
        rw [if_neg (by simp [hsup])] at hm
        dsimp only at hm
        have := List.mem_filter.mp hm
        simpa using this.2
    · simp only [notifierStep] at hm
      have := List.mem_filter.mp hm
      simpa using this.2
  · intro o hn hnd hdel key r0 hkey hl hexp
    subst hn
    by_cases hsup : (Notifier.suppress cfg st o).1 = true
    · simp [notifierStep, hsup] at hdel
    · simp only [notifierStep]
      rw [if_neg (by simp [hsup])]
      dsimp only
      apply lookup_filter_none
      · rw [suppress_records]
        exact dictSet_keys_nodup hnd _ _
      · rw [suppress_records, dictSet_lookup_other hkey]
        exact hl
      · simp [hexp]
  · intro o hn hnone
    subst hn
    by_cases hsup : (Notifier.suppress cfg st o).1 = true
    · simp only [notifierStep]
      rw [if_pos (by simp [hsup])]
      exact suppress_records cfg st o
    · simp [notifierStep, hsup] at hnone

/-- Witness for claim C5 (amended): after a feedback candidate is
processed at wall clock 100, the entry that expired at 0 has been
pruned and its photo lookup answers not-found. -/
theorem claim_C5_amended_witness :
    photoHandler
      (notifierStep {} ⟨.error (), .error (), .error ()⟩ 100
        { mute_until := none, last_notification := [],
          records := [("x", { id := "x", expires_at := 0, jpeg_image := some [7] })] }
        (.feedback { type := .muted, key := "k", mute_seconds := none })).1.records
      "x.jpg" = .recordNotFound :=
  (claim_C5_amended {} ⟨.error (), .error (), .error ()⟩ 100
      { mute_until := none, last_notification := [],
        records := [("x", { id := "x", expires_at := 0, jpeg_image := some [7] })] }
      (.feedback { type := .muted, key := "k", mute_seconds := none })).2.1
    "x.jpg" "x" (by decide) (by decide)
    (by norm_num [notifierStep, pruneRecords])

/-- Claim C6 counterexample: with inactive_track_prune_s = 1, a live
track whose last event is at time 0 and an incoming event at time 1
with the identical box (percent intersection 1, perfect overlap): the
track's age equals the threshold exactly — it is not strictly older
than inactive_track_prune_s — yet the step prunes it (the code keeps a
track only when now − last_t < threshold) and creates a fresh track
from the event. -/
theorem claim_C6_counterexample :
    trackerStep {} none (fun _ => none)
      [Track.from_prediction
        { t := 0, model_id := 1, classification := "car", is_track := false,
          box := ⟨⟨0, 0⟩, ⟨1, 1⟩⟩, image := (0 : Nat), id := "a" }]
      { t := 1, model_id := 1, classification := "car", is_track := false,
        box := ⟨⟨0, 0⟩, ⟨1, 1⟩⟩, image := (0 : Nat), id := "b" } =
      .ok ([Track.from_prediction
        { t := 1, model_id := 1, classification := "car", is_track := false,
          box := ⟨⟨0, 0⟩, ⟨1, 1⟩⟩, image := (0 : Nat), id := "b" }], none) ∧
    (1 : ℚ) - (Track.from_prediction
        { t := 0, model_id := 1, classification := "car", is_track := false,
          box := ⟨⟨0, 0⟩, ⟨1, 1⟩⟩, image := (0 : Nat), id := "a" }).last_t =
      ({} : TrackerConfig).inactive_track_prune_s ∧
    Box.percent_intersection_with
      (Track.from_prediction
        { t := 0, model_id := 1, classification := "car", is_track := false,
          box := ⟨⟨0, 0⟩, ⟨1, 1⟩⟩, image := (0 : Nat), id := "a" }).last_2_box_avg
      ⟨⟨0, 0⟩, ⟨1, 1⟩⟩ = some 1 := by
  refine ⟨?_, ?_, ?_⟩
  · norm_num [trackerStep, pruneTracks, Track.from_prediction, Track.last_t, matchSplit]
  · norm_num [Track.from_prediction, Track.last_t]
  · norm_num [Track.from_prediction, Track.last_2_box_avg, Track.last_box,
      Box.percent_intersection_with]

/-- Claim C6 (amended): when the Association Engine processes an
incoming event, it first removes from the live set exactly those tracks
whose most recent event's timestamp is at least inactive_track_prune_s
older than the incoming event's timestamp (age ≥ threshold; a track
exactly at the threshold is pruned), using event timestamps only — the
step function takes no wall clock, so the engine is a deterministic
function of the input event sequence; consequently when every live
track's age reaches the threshold (in particular after a gap longer
than inactive_track_prune_s), the event starts a fresh single-event
track even with perfect box overlap. -/
theorem claim_C6_amended (cfg : TrackerConfig) (cel : Option (Track → Bool))
    (enc : Image → Option (List Nat)) (s : List Track) (p : TrackPrediction) :
    (∀ t ∈ s, (t ∈ pruneTracks cfg p.t s ↔ p.t - t.last_t < cfg.inactive_track_prune_s)) ∧
    (trackerStep cfg cel enc s p = trackerStep cfg cel enc (pruneTracks cfg p.t s) p) ∧
    ((∀ t ∈ s, cfg.inactive_track_prune_s ≤ p.t - t.last_t) →
      ∃ tr o, trackerStep cfg cel enc s p = .ok ([tr], o) ∧
        tr.predictions = [p] ∧ tr.id = p.id) := by
  refine ⟨?_, ?_, ?_⟩
  · intro t ht
    simp [pruneTracks, List.mem_filter, ht]
  · have hidem : pruneTracks cfg p.t (pruneTracks cfg p.t s) = pruneTracks cfg p.t s := by
      unfold pruneTracks
      rw [List.filter_filter]
      simp
    simp only [trackerStep, hidem]
  · intro hall
    have hlive : pruneTracks cfg p.t s = [] := by
      apply List.filter_eq_nil_iff.mpr
      intro t ht
      simp [not_lt.mpr (hall t ht)]
    simp only [trackerStep, hlive]
    dsimp only [matchSplit]
    split
    · exact ⟨Track.from_prediction p, none, rfl, rfl, rfl⟩
    · split
      · exact ⟨Track.from_prediction p, none, rfl, rfl, rfl⟩
      · split
        · exact ⟨Track.from_prediction p, none, rfl, rfl, rfl⟩
        · exact ⟨{ Track.from_prediction p with triggered_notification := true },
            some (mkObjectNotification enc (Track.from_prediction p)), rfl, rfl, rfl⟩

/-- Witness for claim C6 (amended): at the threshold-gap input, the step
produces a fresh one-event track. -/
theorem claim_C6_amended_witness :
    ∃ tr o, trackerStep {} none (fun _ => none)
      [Track.from_prediction
        { t := 0, model_id := 1, classification := "car", is_track := false,
          box := ⟨⟨0, 0⟩, ⟨1, 1⟩⟩, image := (0 : Nat), id := "a" }]
      { t := 1, model_id := 1, classification := "car", is_track := false,
        box := ⟨⟨0, 0⟩, ⟨1, 1⟩⟩, image := (0 : Nat), id := "b" } = .ok ([tr], o) ∧
      tr.predictions = [({ t := 1, model_id := 1, classification := "car",
                           is_track := false, box := ⟨⟨0, 0⟩, ⟨1, 1⟩⟩,
                           image := (0 : Nat), id := "b" } : TrackPrediction)] ∧
      tr.id = "b" :=
  (claim_C6_amended {} none (fun _ => none)
      [Track.from_prediction
        { t := 0, model_id := 1, classification := "car", is_track := false,
          box := ⟨⟨0, 0⟩, ⟨1, 1⟩⟩, image := (0 : Nat), id := "a" }]
      { t := 1, model_id := 1, classification := "car", is_track := false,
        box := ⟨⟨0, 0⟩, ⟨1, 1⟩⟩, image := (0 : Nat), id := "b" }).2.2
    (by
      intro t ht
      simp only [List.mem_singleton] at ht
      subst ht
      norm_num [Track.from_prediction, Track.last_t])

/- Characterization of the candidate loop (track.py lines 420-438). -/
theorem matchSplit_ok_some {cfg : TrackerConfig} {p : TrackPrediction}
    {live pre post : List Track} {t : Track}
    (h : matchSplit cfg p live = .ok (some (pre, t, post))) :
    live = pre ++ t :: post ∧
    (∃ ia, t.last_2_box_avg.percent_intersection_with p.box = some ia ∧
      overlapNeeded cfg p t < ia) ∧
    (∀ t2 ∈ pre, ∃ ia2, t2.last_2_box_avg.percent_intersection_with p.box = some ia2 ∧
      ia2 ≤ overlapNeeded cfg p t2) := by
  induction live generalizing pre with
  | nil => simp [matchSplit] at h
  | cons hd rest ih =>
    rw [matchSplit] at h
    rcases hpct : hd.last_2_box_avg.percent_intersection_with p.box with _ | ia
    · rw [hpct] at h
      simp at h
    · rw [hpct] at h
      dsimp only at h
      by_cases hq : overlapNeeded cfg p hd < ia
      · rw [if_pos hq] at h
        simp only [Except.ok.injEq, Option.some.injEq, Prod.mk.injEq] at h
        obtain ⟨h1, h2, h3⟩ := h
        subst h1
        subst h2
        subst h3
        exact ⟨rfl, ⟨ia, hpct, hq⟩, by simp⟩
      · rw [if_neg hq] at h
        rcases hms : matchSplit cfg p rest with _ | found
        · rw [hms] at h
          simp at h
        · rw [hms] at h
          rcases found with _ | ⟨pre2, m, post2⟩
          · simp at h
          · simp only [Except.ok.injEq, Option.some.injEq, Prod.mk.injEq] at h
            obtain ⟨h1, h2, h3⟩ := h
            subst h1
            subst h2
            subst h3
            obtain ⟨ihl, ihq, ihpre⟩ := ih hms
            refine ⟨by rw [ihl]; simp, ihq, ?_⟩
            intro t2 ht2
            rcases List.mem_cons.mp ht2 with he | hm
            · subst he
              exact ⟨ia, hpct, not_lt.mp hq⟩
            · exact ihpre t2 hm

theorem matchSplit_ok_none {cfg : TrackerConfig} {p : TrackPrediction}
    {live : List Track} (h : matchSplit cfg p live = .ok none) :
    ∀ t ∈ live, ∃ ia, t.last_2_box_avg.percent_intersection_with p.box = some ia ∧
      ia ≤ overlapNeeded cfg p t := by
  induction live with
  | nil => intro t ht; simp at ht
  | cons hd rest ih =>
    rw [matchSplit] at h
    rcases hpct : hd.last_2_box_avg.percent_intersection_with p.box with _ | ia
    · rw [hpct] at h
      simp at h
    · rw [hpct] at h
      dsimp only at h
      by_cases hq : overlapNeeded cfg p hd < ia
      · rw [if_pos hq] at h
        simp at h
      · rw [if_neg hq] at h
        rcases hms : matchSplit cfg p rest with _ | found
        · rw [hms] at h
          simp at h
        · rw [hms] at h
          rcases found with _ | f
          · intro t ht
            rcases List.mem_cons.mp ht with he | hm
            · subst he
              exact ⟨ia, hpct, not_lt.mp hq⟩
            · exact ih hms t hm
          · simp at h

/- Full case analysis of one Tracker._run iteration, shared by the
   matching and lifecycle theorems below. -/
theorem trackerStep_cases {cfg : TrackerConfig} {cel : Option (Track → Bool)}
    {enc : Image → Option (List Nat)} {s : List Track} {p : TrackPrediction}
    {s2 : List Track} {o : Option ObjectNotification}
    (h : trackerStep cfg cel enc s p = .ok (s2, o)) :
    ∃ (pre post : List Track) (u : Track),
      ((∃ t0, matchSplit cfg p (pruneTracks cfg p.t s) = .ok (some (pre, t0, post)) ∧
          u = t0.add_prediction p) ∨
       (matchSplit cfg p (pruneTracks cfg p.t s) = .ok none ∧
          pre = pruneTracks cfg p.t s ∧ post = [] ∧ u = Track.from_prediction p)) ∧
      ((o = none ∧ s2 = pre ++ u :: post ∧
          (u.is_model_track = false ∨ u.triggered_notification = true ∨
           notifyCriteria cfg cel u = false)) ∨
       (o = some (mkObjectNotification enc u) ∧
          s2 = pre ++ { u with triggered_notification := true } :: post ∧
          u.is_model_track = true ∧ u.triggered_notification = false ∧
          notifyCriteria cfg cel u = true)) := by
  simp only [trackerStep] at h
  rcases hms : matchSplit cfg p (pruneTracks cfg p.t s) with e | found
  · rw [hms] at h
    simp at h
  · rw [hms] at h
    rcases found with _ | ⟨pre, t0, post⟩
    all_goals dsimp only at h
    · refine ⟨pruneTracks cfg p.t s, [], Track.from_prediction p,
        Or.inr ⟨rfl, rfl, rfl, rfl⟩, ?_⟩
      by_cases hmt : (Track.from_prediction p).is_model_track = true
      · rw [hmt] at h
        by_cases htr : (Track.from_prediction p).triggered_notification = true
        · rw [htr] at h
          simp at h
          obtain ⟨h1, h2⟩ := h
          subst h1
          subst h2
          exact Or.inl ⟨rfl, by simp, Or.inr (Or.inl htr)⟩
        · rw [Bool.not_eq_true] at htr
          rw [htr] at h
          by_cases hcr : notifyCriteria cfg cel (Track.from_prediction p) = true
          · rw [hcr] at h
            simp at h
            obtain ⟨h1, h2⟩ := h
            subst h1
            subst h2
            refine Or.inr ⟨rfl, ?_, ?_, htr, hcr⟩
            · simp [hmt]
            · exact hmt
          · rw [Bool.not_eq_true] at hcr
            rw [hcr] at h
            simp at h
            obtain ⟨h1, h2⟩ := h
            subst h1
            subst h2
            exact Or.inl ⟨rfl, by simp, Or.inr (Or.inr hcr)⟩
      · rw [Bool.not_eq_true] at hmt
        rw [hmt] at h
        simp at h
        obtain ⟨h1, h2⟩ := h
        subst h1
        subst h2
        exact Or.inl ⟨rfl, by simp, Or.inl hmt⟩
    · refine ⟨pre, post, t0.add_prediction p, Or.inl ⟨t0, rfl, rfl⟩, ?_⟩
      by_cases hmt : (t0.add_prediction p).is_model_track = true
      · rw [hmt] at h
        by_cases htr : (t0.add_prediction p).triggered_notification = true
        · rw [htr] at h
          simp at h
          obtain ⟨h1, h2⟩ := h
          subst h1
          subst h2
          exact Or.inl ⟨rfl, by simp, Or.inr (Or.inl htr)⟩
        · rw [Bool.not_eq_true] at htr
          rw [htr] at h
          by_cases hcr : notifyCriteria cfg cel (t0.add_prediction p) = true
          · rw [hcr] at h
            simp at h
            obtain ⟨h1, h2⟩ := h
            subst h1
            subst h2
            refine Or.inr ⟨rfl, ?_, ?_, htr, hcr⟩
            · simp [hmt]
            · exact hmt
          · rw [Bool.not_eq_true] at hcr
            rw [hcr] at h
            simp at h
            obtain ⟨h1, h2⟩ := h
            subst h1
            subst h2
            exact Or.inl ⟨rfl, by simp, Or.inr (Or.inr hcr)⟩
      · rw [Bool.not_eq_true] at hmt
        rw [hmt] at h
        simp at h
        obtain ⟨h1, h2⟩ := h
        subst h1
        subst h2
        exact Or.inl ⟨rfl, by simp, Or.inl hmt⟩

theorem add_prediction_predictions (tr : Track) (p : TrackPrediction) :
    (tr.add_prediction p).predictions = tr.predictions ++ [p] := rfl

theorem add_prediction_id (tr : Track) (p : TrackPrediction) :
    (tr.add_prediction p).id = tr.id := rfl

/-- Claim C1 counterexample: two live tracks of the event's
classification, created in order a then b, with intersections 1/4 and
3/10 against the incoming event — both strictly above the 1/5
threshold, and track b's intersection strictly greater.  The claim
requires the event to be appended to track b; the code's candidate loop
breaks at the first qualifying track and appends the event to track a,
leaving track b untouched. -/
theorem claim_C1_counterexample :
    Box.percent_intersection_with
      (Track.from_prediction
        { t := 0, model_id := 1, classification := "car", is_track := false,
          box := ⟨⟨0, 0⟩, ⟨1/4, 1⟩⟩, image := (0 : Nat), id := "a" }).last_2_box_avg
      ⟨⟨0, 0⟩, ⟨1, 1⟩⟩ = some (1/4) ∧
    Box.percent_intersection_with
      (Track.from_prediction
        { t := 0, model_id := 1, classification := "car", is_track := false,
          box := ⟨⟨0, 0⟩, ⟨3/10, 1⟩⟩, image := (0 : Nat), id := "b" }).last_2_box_avg
      ⟨⟨0, 0⟩, ⟨1, 1⟩⟩ = some (3/10) ∧
    ((1 : ℚ)/5 < 1/4 ∧ (1 : ℚ)/5 < 3/10 ∧ (1 : ℚ)/4 < 3/10) ∧
    trackerStep {} none (fun _ => none)
      [Track.from_prediction
        { t := 0, model_id := 1, classification := "car", is_track := false,
          box := ⟨⟨0, 0⟩, ⟨1/4, 1⟩⟩, image := (0 : Nat), id := "a" },
       Track.from_prediction
        { t := 0, model_id := 1, classification := "car", is_track := false,
          box := ⟨⟨0, 0⟩, ⟨3/10, 1⟩⟩, image := (0 : Nat), id := "b" }]
      { t := 1/2, model_id := 1, classification := "car", is_track := false,
        box := ⟨⟨0, 0⟩, ⟨1, 1⟩⟩, image := (0 : Nat), id := "c" } =
      .ok ([Track.add_prediction
              (Track.from_prediction
                { t := 0, model_id := 1, classification := "car", is_track := false,
                  box := ⟨⟨0, 0⟩, ⟨1/4, 1⟩⟩, image := (0 : Nat), id := "a" })
              { t := 1/2, model_id := 1, classification := "car", is_track := false,
                box := ⟨⟨0, 0⟩, ⟨1, 1⟩⟩, image := (0 : Nat), id := "c" },
            Track.from_prediction
              { t := 0, model_id := 1, classification := "car", is_track := false,
                box := ⟨⟨0, 0⟩, ⟨3/10, 1⟩⟩, image := (0 : Nat), id := "b" }], none) := by
  refine ⟨?_, ?_, by norm_num, ?_⟩
  · norm_num [Track.from_prediction, Track.last_2_box_avg, Track.last_box,
      Box.percent_intersection_with]
  · norm_num [Track.from_prediction, Track.last_2_box_avg, Track.last_box,
      Box.percent_intersection_with]
  · norm_num [trackerStep, pruneTracks, matchSplit, overlapNeeded,
      Track.from_prediction, Track.last_t, Track.last_2_box_avg, Track.last_box,
      Track.classification, maxVote, maxVoteGo, bumpVote,
      Box.percent_intersection_with, Track.add_prediction]

/-- Claim C1 (amended): for every incoming event, a live track
qualifies as a match exactly when the percent intersection between the
average of the track's last two boxes (or its single box) and the
event's box strictly exceeds track_connect_min_overlap, multiplied by
1.5 if the track's majority classification differs from the event's
classification; among the live tracks, the event is appended in place
to the FIRST qualifying track in creation (iteration) order — the scan
stops at the first qualifying track, so no comparison of intersection
values between qualifying tracks occurs — and if no track qualifies a
new track is created from the event and appended to the end of the
live list. -/
theorem claim_C1_amended (cfg : TrackerConfig) (cel : Option (Track → Bool))
    (enc : Image → Option (List Nat)) (p : TrackPrediction) :
    (∀ t : Track, p.classification = t.classification →
      overlapNeeded cfg p t = cfg.track_connect_min_overlap) ∧
    (∀ t : Track, p.classification ≠ t.classification →
      overlapNeeded cfg p t = cfg.track_connect_min_overlap * (3 / 2)) ∧
    (∀ (live pre post : List Track) (t : Track),
      matchSplit cfg p live = .ok (some (pre, t, post)) →
      live = pre ++ t :: post ∧
      (∃ ia, t.last_2_box_avg.percent_intersection_with p.box = some ia ∧
        overlapNeeded cfg p t < ia) ∧
      (∀ t2 ∈ pre, ∃ ia2, t2.last_2_box_avg.percent_intersection_with p.box = some ia2 ∧
        ia2 ≤ overlapNeeded cfg p t2)) ∧
    (∀ live : List Track, matchSplit cfg p live = .ok none →
      ∀ t ∈ live, ∃ ia, t.last_2_box_avg.percent_intersection_with p.box = some ia ∧
        ia ≤ overlapNeeded cfg p t) ∧
    (∀ (s s2 : List Track) (o : Option ObjectNotification),
      trackerStep cfg cel enc s p = .ok (s2, o) →
      ((∃ pre t0 post u, matchSplit cfg p (pruneTracks cfg p.t s) =
            .ok (some (pre, t0, post)) ∧
          s2 = pre ++ u :: post ∧ u.predictions = t0.predictions ++ [p] ∧
          u.id = t0.id) ∨
       (matchSplit cfg p (pruneTracks cfg p.t s) = .ok none ∧
          ∃ u, s2 = pruneTracks cfg p.t s ++ [u] ∧ u.predictions = [p] ∧
            u.id = p.id))) := by
  refine ⟨?_, ?_, ?_, ?_, ?_⟩
  · intro t h
    simp [overlapNeeded, h]
  · intro t h
    simp [overlapNeeded, h]
  · intro live pre post t h
    exact matchSplit_ok_some h
  · intro live h
    exact matchSplit_ok_none h
  · intro s s2 o h
    obtain ⟨pre, post, u, hsrc, hout⟩ := trackerStep_cases h
    rcases hsrc with ⟨t0, hms, hu⟩ | ⟨hms, hpre, hpost, hu⟩
    · refine Or.inl ?_
      rcases hout with ⟨_, hs2, _⟩ | ⟨_, hs2, _, _, _⟩
      · exact ⟨pre, t0, post, u, hms, hs2, by rw [hu]; rfl, by rw [hu]; rfl⟩
      · exact ⟨pre, t0, post, { u with triggered_notification := true }, hms, hs2,
          by rw [hu]; rfl, by rw [hu]; rfl⟩
    · refine Or.inr ⟨hms, ?_⟩
      subst hpre
      subst hpost
      rcases hout with ⟨_, hs2, _⟩ | ⟨_, hs2, _, _, _⟩
      · exact ⟨u, by simpa using hs2, by rw [hu]; rfl, by rw [hu]; rfl⟩
      · exact ⟨{ u with triggered_notification := true }, by simpa using hs2,
          by rw [hu]; rfl, by rw [hu]; rfl⟩

/-- Witness for claim C1 (amended): at the two-track input of the
counterexample, the candidate loop returns the first track with the
second in the untouched suffix, and the first track indeed qualifies. -/
theorem claim_C1_amended_witness :
    [Track.from_prediction
      { t := 0, model_id := 1, classification := "car", is_track := false,
        box := ⟨⟨0, 0⟩, ⟨1/4, 1⟩⟩, image := (0 : Nat), id := "a" },
     Track.from_prediction
      { t := 0, model_id := 1, classification := "car", is_track := false,
        box := ⟨⟨0, 0⟩, ⟨3/10, 1⟩⟩, image := (0 : Nat), id := "b" }] =
      [] ++ (Track.from_prediction
        { t := 0, model_id := 1, classification := "car", is_track := false,
          box := ⟨⟨0, 0⟩, ⟨1/4, 1⟩⟩, image := (0 : Nat), id := "a" }) ::
        [Track.from_prediction
          { t := 0, model_id := 1, classification := "car", is_track := false,
            box := ⟨⟨0, 0⟩, ⟨3/10, 1⟩⟩, image := (0 : Nat), id := "b" }] ∧
    (∃ ia, Box.percent_intersection_with
        (Track.from_prediction
          { t := 0, model_id := 1, classification := "car", is_track := false,
            box := ⟨⟨0, 0⟩, ⟨1/4, 1⟩⟩, image := (0 : Nat), id := "a" }).last_2_box_avg
        { t := 1/2, model_id := 1, classification := "car", is_track := false,
          box := ⟨⟨0, 0⟩, ⟨1, 1⟩⟩, image := (0 : Nat), id := "c" : TrackPrediction }.box =
        some ia ∧
      overlapNeeded {}
        { t := 1/2, model_id := 1, classification := "car", is_track := false,
          box := ⟨⟨0, 0⟩, ⟨1, 1⟩⟩, image := (0 : Nat), id := "c" }
        (Track.from_prediction
          { t := 0, model_id := 1, classification := "car", is_track := false,
            box := ⟨⟨0, 0⟩, ⟨1/4, 1⟩⟩, image := (0 : Nat), id := "a" }) < ia) ∧
    (∀ t2 ∈ ([] : List Track), ∃ ia2, Box.percent_intersection_with
        t2.last_2_box_avg
        { t := 1/2, model_id := 1, classification := "car", is_track := false,
          box := ⟨⟨0, 0⟩, ⟨1, 1⟩⟩, image := (0 : Nat), id := "c" : TrackPrediction }.box =
        some ia2 ∧
      ia2 ≤ overlapNeeded {}
        { t := 1/2, model_id := 1, classification := "car", is_track := false,
          box := ⟨⟨0, 0⟩, ⟨1, 1⟩⟩, image := (0 : Nat), id := "c" } t2) :=
  (claim_C1_amended {} none (fun _ => none)
      { t := 1/2, model_id := 1, classification := "car", is_track := false,
        box := ⟨⟨0, 0⟩, ⟨1, 1⟩⟩, image := (0 : Nat), id := "c" }).2.2.1
    [Track.from_prediction
      { t := 0, model_id := 1, classification := "car", is_track := false,
        box := ⟨⟨0, 0⟩, ⟨1/4, 1⟩⟩, image := (0 : Nat), id := "a" },
     Track.from_prediction
      { t := 0, model_id := 1, classification := "car", is_track := false,
        box := ⟨⟨0, 0⟩, ⟨3/10, 1⟩⟩, image := (0 : Nat), id := "b" }]
    []
    [Track.from_prediction
      { t := 0, model_id := 1, classification := "car", is_track := false,
        box := ⟨⟨0, 0⟩, ⟨3/10, 1⟩⟩, image := (0 : Nat), id := "b" }]
    (Track.from_prediction
      { t := 0, model_id := 1, classification := "car", is_track := false,
        box := ⟨⟨0, 0⟩, ⟨1/4, 1⟩⟩, image := (0 : Nat), id := "a" })
    (by norm_num [matchSplit, overlapNeeded, Track.from_prediction,
      Track.last_2_box_avg, Track.last_box, Track.classification,
      maxVote, maxVoteGo, bumpVote, Box.percent_intersection_with])

/- Proof-side reformulation of the name_votes dict (track.py lines
   104-108): processing labels left to right, the dict holds, in
   first-seen key order, each label with its running count.  votesRec
   computes the same association list by direct recursion; the lemmas
   below verify the equivalence and the properties of Python's
   first-maximum max().
-/
def votesRec : List String → List (String × Nat)
  | [] => []
  | c :: cs => (c, cs.count c + 1) :: votesRec (cs.filter (fun d => d ≠ c))
termination_by ls => ls.length
decreasing_by
  simp only [List.length_cons]
  exact Nat.lt_succ_of_le (List.length_filter_le _ _)

theorem foldl_bumpVote_cons (cs : List String) :
    ∀ (v : List (String × Nat)) (c : String) (n : Nat),
    List.foldl bumpVote ((c, n) :: v) cs =
      (c, n + cs.count c) :: List.foldl bumpVote v (cs.filter (fun d => d ≠ c)) := by
  induction cs with
  | nil => intro v c n; simp
  | cons d cs2 ih =>
    intro v c n
    by_cases hd : d = c
    · subst hd
      have hb : bumpVote ((d, n) :: v) d = (d, n + 1) :: v := by
        simp [bumpVote]
      rw [List.foldl_cons, hb, ih]
      have hcount : (d :: cs2).count d = cs2.count d + 1 := by
        simp [List.count_cons]
      have hfil : (d :: cs2).filter (fun x => x ≠ d) = cs2.filter (fun x => x ≠ d) := by
        simp [List.filter_cons]
      rw [hcount, hfil]
      congr 2
      omega
    · have hb : bumpVote ((c, n) :: v) d = (c, n) :: bumpVote v d := by
        have : c ≠ d := fun he => hd he.symm
        simp [bumpVote, this]
      rw [List.foldl_cons, hb, ih]
      have hcount : (d :: cs2).count c = cs2.count c := by
        simp [List.count_cons, hd]
      have hfil : (d :: cs2).filter (fun x => x ≠ c) =
          d :: cs2.filter (fun x => x ≠ c) := by
        simp [List.filter_cons, hd]
      rw [hcount, hfil, List.foldl_cons]

theorem foldl_bumpVote_eq_votesRec (ls : List String) :
    List.foldl bumpVote [] ls = votesRec ls := by
  induction ls using votesRec.induct with
  | case1 => simp [votesRec]
  | case2 c cs ih =>
    rw [List.foldl_cons]
    have hb : bumpVote [] c = [(c, 1)] := rfl
    rw [hb]
    have h1 : ([(c, 1)] : List (String × Nat)) = (c, 1) :: [] := rfl
    rw [h1, foldl_bumpVote_cons, votesRec, ih]
    have h2 : 1 + cs.count c = cs.count c + 1 := Nat.add_comm _ _
    rw [h2]

theorem votesRec_mem {ls : List String} {kn : String × Nat} (h : kn ∈ votesRec ls) :
    kn.1 ∈ ls ∧ kn.2 = ls.count kn.1 := by
  induction ls using votesRec.induct with
  | case1 => simp [votesRec] at h
  | case2 c cs ih =>
    rw [votesRec] at h
    rcases List.mem_cons.mp h with he | hm
    · subst he
      refine ⟨List.mem_cons_self _ _, ?_⟩
      simp [List.count_cons]
    · obtain ⟨hmem, hcount⟩ := ih hm
      have hne : kn.1 ≠ c := by
        have := List.mem_filter.mp hmem
        simpa using this.2
      have hcs : kn.1 ∈ cs := (List.mem_filter.mp hmem).1
      refine ⟨List.mem_cons_of_mem _ hcs, ?_⟩
      rw [hcount, List.count_filter (by simpa using hne)]
      simp [List.count_cons, hne]

theorem votesRec_mem_of {ls : List String} {d : String} (h : d ∈ ls) :
    (d, ls.count d) ∈ votesRec ls := by
  induction ls using votesRec.induct with
  | case1 => simp at h
  | case2 c cs ih =>
    rw [votesRec]
    by_cases hd : d = c
    · subst hd
      have hc : (d :: cs).count d = cs.count d + 1 := by simp [List.count_cons]
      rw [hc]
      exact List.mem_cons_self _ _
    · have hcs : d ∈ cs := by
        rcases List.mem_cons.mp h with he | hm
        · exact absurd he hd
        · exact hm
      have hfil : d ∈ cs.filter (fun x => x ≠ c) := by
        apply List.mem_filter.mpr
        exact ⟨hcs, by simpa using hd⟩
      have := ih hfil
      have hcnt : (cs.filter (fun x => x ≠ c)).count d = (c :: cs).count d := by
        rw [List.count_filter (by simpa using hd)]
        simp [List.count_cons, hd]
      rw [hcnt] at this
      exact List.mem_cons_of_mem _ this

theorem maxVoteGo_spec (vl : List (String × Nat)) :
    ∀ bb : String × Nat,
    (maxVoteGo bb vl = bb ∧ ∀ kn ∈ vl, kn.2 ≤ bb.2) ∨
    (∃ pre kn post, vl = pre ++ kn :: post ∧ maxVoteGo bb vl = kn ∧ bb.2 < kn.2 ∧
      (∀ kn2 ∈ pre, kn2.2 < kn.2) ∧ (∀ kn2 ∈ post, kn2.2 ≤ kn.2)) := by
  induction vl with
  | nil =>
    intro bb
    exact Or.inl ⟨rfl, by simp⟩
  | cons kn rest ih =>
    intro bb
    by_cases h : bb.2 < kn.2
    · have hgo : maxVoteGo bb (kn :: rest) = maxVoteGo kn rest := by
        rw [maxVoteGo, if_pos h]
      rcases ih kn with ⟨heq, hall⟩ | ⟨pre, kn2, post, hsplit, heq, hlt, hpre, hpost⟩
      · refine Or.inr ⟨[], kn, rest, by simp, ?_, h, by simp, hall⟩
        rw [hgo, heq]
      · refine Or.inr ⟨kn :: pre, kn2, post, by rw [hsplit]; simp, ?_,
          lt_trans h hlt, ?_, hpost⟩
        · rw [hgo, heq]
        · intro kn3 hm
          rcases List.mem_cons.mp hm with he | hm2
          · subst he
            exact hlt
          · exact hpre kn3 hm2
    · have hgo : maxVoteGo bb (kn :: rest) = maxVoteGo bb rest := by
        rw [maxVoteGo, if_neg h]
      rcases ih bb with ⟨heq, hall⟩ | ⟨pre, kn2, post, hsplit, heq, hlt, hpre, hpost⟩
      · refine Or.inl ⟨by rw [hgo, heq], ?_⟩
        intro kn2 hm
        rcases List.mem_cons.mp hm with he | hm2
        · subst he
          exact not_lt.mp h
        · exact hall kn2 hm2
      · refine Or.inr ⟨kn :: pre, kn2, post, by rw [hsplit]; simp, ?_, hlt, ?_, hpost⟩
        · rw [hgo, heq]
        · intro kn3 hm
          rcases List.mem_cons.mp hm with he | hm2
          · subst he
            exact lt_of_le_of_lt (not_lt.mp h) hlt
          · exact hpre kn3 hm2

theorem indexOf_filter_lt {q : String → Bool} :
    ∀ (cs : List String) (a b : String), a ∈ cs.filter q → b ∈ cs.filter q →
    (cs.filter q).indexOf a < (cs.filter q).indexOf b →
    cs.indexOf a < cs.indexOf b := by
  intro cs
  induction cs with
  | nil => intro a b ha; simp at ha
  | cons d cs2 ih =>
    intro a b ha hb hlt
    by_cases hq : q d
    · rw [List.filter_cons, if_pos hq] at ha hb hlt
      by_cases had : a = d
      · subst had
        have hbd : b ≠ a := by
          intro he
          subst he
          exact lt_irrefl _ hlt
        rw [List.indexOf_cons_self]
        rw [List.indexOf_cons_ne _ (fun he => hbd he.symm)]
        exact Nat.succ_pos _
      · by_cases hbd : b = d
        · subst hbd
          rw [List.indexOf_cons_self] at hlt
          exact absurd hlt (Nat.not_lt_zero _)
        · rw [List.indexOf_cons_ne _ (fun he => had he.symm),
            List.indexOf_cons_ne _ (fun he => hbd he.symm)] at hlt
          have ha2 : a ∈ cs2.filter q := by
            rcases List.mem_cons.mp ha with he | hm
            · exact absurd he had
            · exact hm
          have hb2 : b ∈ cs2.filter q := by
            rcases List.mem_cons.mp hb with he | hm
            · exact absurd he hbd
            · exact hm
          rw [List.indexOf_cons_ne _ (fun he => had he.symm),
            List.indexOf_cons_ne _ (fun he => hbd he.symm)]
          exact Nat.succ_lt_succ (ih a b ha2 hb2 (Nat.lt_of_succ_lt_succ hlt))
    · rw [List.filter_cons, if_neg hq] at ha hb hlt
      have hqa : q a := List.of_mem_filter ha
      have hqb : q b := List.of_mem_filter hb
      have had : a ≠ d := fun he => hq (he ▸ hqa)
      have hbd : b ≠ d := fun he => hq (he ▸ hqb)
      rw [List.indexOf_cons_ne _ (fun he => had he.symm),
        List.indexOf_cons_ne _ (fun he => hbd he.symm)]
      exact Nat.succ_lt_succ (ih a b ha hb hlt)

theorem votesRec_order {kn kn2 : String × Nat} :
    ∀ {ls : List String} {pre post : List (String × Nat)},
    votesRec ls = pre ++ kn :: post → kn2 ∈ post →
    ls.indexOf kn.1 < ls.indexOf kn2.1 := by
  intro ls
  induction ls using votesRec.induct with
  | case1 =>
    intro pre post h h2
    rw [votesRec] at h
    exact absurd h.symm (List.append_ne_nil_of_right_ne_nil _ (List.cons_ne_nil _ _))
  | case2 c cs ih =>
    intro pre post h h2
    rw [votesRec] at h
    rcases pre with _ | ⟨q, pre2⟩
    · simp only [List.nil_append, List.cons.injEq] at h
      obtain ⟨hkn, hpost⟩ := h
      have hmem : kn2 ∈ votesRec (cs.filter (fun d => d ≠ c)) := by
        rw [hpost]
        exact h2
      obtain ⟨hmem2, _⟩ := votesRec_mem hmem
      have hne : kn2.1 ≠ c := by
        have := List.mem_filter.mp hmem2
        simpa using this.2
      have hcs : kn2.1 ∈ cs := (List.mem_filter.mp hmem2).1
      rw [← hkn]
      dsimp only
      rw [List.indexOf_cons_self, List.indexOf_cons_ne _ (fun he => hne he.symm)]
      exact Nat.succ_pos _
    · simp only [List.cons_append, List.cons.injEq] at h
      obtain ⟨_, hrest⟩ := h
      have hlt := ih hrest h2
      have hknmem : kn ∈ votesRec (cs.filter (fun d => d ≠ c)) := by
        rw [hrest]
        exact List.mem_append_right _ (List.mem_cons_self _ _)
      have hkn2mem : kn2 ∈ votesRec (cs.filter (fun d => d ≠ c)) := by
        rw [hrest]
        exact List.mem_append_right _ (List.mem_cons_of_mem _ h2)
      obtain ⟨hknf, _⟩ := votesRec_mem hknmem
      obtain ⟨hkn2f, _⟩ := votesRec_mem hkn2mem
      have hkne : kn.1 ≠ c := by
        have := List.mem_filter.mp hknf
        simpa using this.2
      have hkn2e : kn2.1 ≠ c := by
        have := List.mem_filter.mp hkn2f
        simpa using this.2
      have hcslt : cs.indexOf kn.1 < cs.indexOf kn2.1 :=
        indexOf_filter_lt cs kn.1 kn2.1 hknf hkn2f hlt
      rw [List.indexOf_cons_ne _ (fun he => hkne he.symm),
        List.indexOf_cons_ne _ (fun he => hkn2e he.symm)]
      exact Nat.succ_lt_succ hcslt

theorem maxVote_votesRec_spec (ls : List String) (hne : ls ≠ []) :
    maxVote (votesRec ls) ∈ ls ∧
    (∀ c ∈ ls, ls.count c ≤ ls.count (maxVote (votesRec ls))) ∧
    (∀ c ∈ ls, c ≠ maxVote (votesRec ls) →
      ls.count c = ls.count (maxVote (votesRec ls)) →
      ls.indexOf (maxVote (votesRec ls)) < ls.indexOf c) := by
  match ls, hne with
  | c :: cs, _ =>
    have hv : votesRec (c :: cs) =
        (c, cs.count c + 1) :: votesRec (cs.filter (fun d => d ≠ c)) := by
      rw [votesRec]
    have hm : maxVote (votesRec (c :: cs)) =
        (maxVoteGo (c, cs.count c + 1) (votesRec (cs.filter (fun d => d ≠ c)))).1 := by
      rw [hv]
      rfl
    have hcount_c : (c :: cs).count c = cs.count c + 1 := by
      simp [List.count_cons]
    rcases maxVoteGo_spec (votesRec (cs.filter (fun d => d ≠ c))) (c, cs.count c + 1) with
      ⟨heq, hall⟩ | ⟨pre, kn, post, hsplit, heq, hlt, hpre, hpost⟩
    · have hres : maxVote (votesRec (c :: cs)) = c := by
        rw [hm, heq]
      rw [hres]
      refine ⟨List.mem_cons_self _ _, ?_, ?_⟩
      · intro d hd
        by_cases hdc : d = c
        · subst hdc
          exact le_refl _
        · have hdcs : d ∈ cs := by
            rcases List.mem_cons.mp hd with he | h2
            · exact absurd he hdc
            · exact h2
          have hdL : d ∈ cs.filter (fun x => x ≠ c) :=
            List.mem_filter.mpr ⟨hdcs, by simpa using hdc⟩
          have hb := hall _ (votesRec_mem_of hdL)
          simp only at hb
          have hLd : (cs.filter (fun x => x ≠ c)).count d = (c :: cs).count d := by
            rw [List.count_filter (by simpa using hdc)]
            simp [List.count_cons, hdc]
          rw [hLd] at hb
          rw [hcount_c]
          exact hb
      · intro d hd hdne hdcount
        rw [List.indexOf_cons_self]
        rw [List.indexOf_cons_ne _ (fun he => hdne he.symm)]
        exact Nat.succ_pos _
    · have hres : maxVote (votesRec (c :: cs)) = kn.1 := by
        rw [hm, heq]
      rw [hres]
      have hknmem : kn ∈ votesRec (cs.filter (fun d => d ≠ c)) := by
        rw [hsplit]
        exact List.mem_append_right _ (List.mem_cons_self _ _)
      obtain ⟨hknL, hkncount⟩ := votesRec_mem hknmem
      have hknne : kn.1 ≠ c := by
        have := List.mem_filter.mp hknL
        simpa using this.2
      have hkncs : kn.1 ∈ cs := (List.mem_filter.mp hknL).1
      have hLm : (cs.filter (fun d => d ≠ c)).count kn.1 = (c :: cs).count kn.1 := by
        rw [List.count_filter (by simpa using hknne)]
        simp [List.count_cons, hknne]
      have hkn2 : kn.2 = (c :: cs).count kn.1 := by
        rw [hkncount, hLm]
      refine ⟨List.mem_cons_of_mem _ hkncs, ?_, ?_⟩
      · intro d hd
        by_cases hdc : d = c
        · subst hdc
          rw [hcount_c, ← hkn2]
          exact le_of_lt hlt
        · have hdcs : d ∈ cs := by
            rcases List.mem_cons.mp hd with he | h2
            · exact absurd he hdc
            · exact h2
          have hdL : d ∈ cs.filter (fun x => x ≠ c) :=
            List.mem_filter.mpr ⟨hdcs, by simpa using hdc⟩
          have hdmem := votesRec_mem_of hdL
          have hLd : (cs.filter (fun x => x ≠ c)).count d = (c :: cs).count d := by
            rw [List.count_filter (by simpa using hdc)]
            simp [List.count_cons, hdc]
          rw [hsplit] at hdmem
          rw [← hLd, ← hkn2]
          rcases List.mem_append.mp hdmem with hpre2 | hrest
          · exact le_of_lt (hpre _ hpre2)
          · rcases List.mem_cons.mp hrest with he | hpost2
            · rw [show d = kn.1 from congrArg Prod.fst he]
              exact le_of_eq hkncount.symm
            · exact hpost _ hpost2
      · intro d hd hdne hdcount
        by_cases hdc : d = c
        · subst hdc
          exfalso
          rw [hcount_c, ← hkn2] at hdcount
          omega
        · have hdcs : d ∈ cs := by
            rcases List.mem_cons.mp hd with he | h2
            · exact absurd he hdc
            · exact h2
          have hdL : d ∈ cs.filter (fun x => x ≠ c) :=
            List.mem_filter.mpr ⟨hdcs, by simpa using hdc⟩
          have hdmem := votesRec_mem_of hdL
          have hLd : (cs.filter (fun x => x ≠ c)).count d = (c :: cs).count d := by
            rw [List.count_filter (by simpa using hdc)]
            simp [List.count_cons, hdc]
          have hdval : (cs.filter (fun x => x ≠ c)).count d = kn.2 := by
            rw [hLd, hdcount, ← hkn2]
          rw [hsplit] at hdmem
          rcases List.mem_append.mp hdmem with hpre2 | hrest
          · exfalso
            have := hpre _ hpre2
            simp only at this
            omega
          · rcases List.mem_cons.mp hrest with he | hpost2
            · exact absurd (congrArg Prod.fst he) hdne
            · have horder := votesRec_order hsplit hpost2
              simp only at horder
              have hcslt := indexOf_filter_lt cs kn.1 d hknL hdL horder
              rw [List.indexOf_cons_ne _ (fun he2 => hknne he2.symm),
                List.indexOf_cons_ne _ (fun he2 => hdc he2.symm)]
              exact Nat.succ_lt_succ hcslt

/-- Claim C7: for every track with a non-empty prediction list, the
track's classification equals the statistical mode of its events'
classification labels — it occurs in the label list, its count is
maximal, and any other label attaining the same count first occurs
strictly later than it (ties broken in favor of the label seen
first). -/
theorem claim_C7 (tr : Track) (hne : tr.predictions ≠ []) :
    tr.classification ∈ tr.predictions.map (fun p => p.classification) ∧
    (∀ c ∈ tr.predictions.map (fun p => p.classification),
      (tr.predictions.map (fun p => p.classification)).count c ≤
        (tr.predictions.map (fun p => p.classification)).count tr.classification) ∧
    (∀ c ∈ tr.predictions.map (fun p => p.classification),
      c ≠ tr.classification →
      (tr.predictions.map (fun p => p.classification)).count c =
        (tr.predictions.map (fun p => p.classification)).count tr.classification →
      (tr.predictions.map (fun p => p.classification)).indexOf tr.classification <
        (tr.predictions.map (fun p => p.classification)).indexOf c) := by
  have hmap : tr.predictions.map (fun p => p.classification) ≠ [] := by
    intro h
    exact hne (List.map_eq_nil_iff.mp h)
  have hcls : tr.classification =
      maxVote (votesRec (tr.predictions.map (fun p => p.classification))) := by
    unfold Track.classification
    rw [← foldl_bumpVote_eq_votesRec, List.foldl_map]
  rw [hcls]
  exact maxVote_votesRec_spec _ hmap

/- A concrete track whose events are classified car, car, car, truck. -/
def carCarCarTruckTrack : Track where
  predictions := [⟨0, 1, "car", true, ⟨⟨0, 0⟩, ⟨1, 1⟩⟩, (0 : Nat), "e1"⟩,
    ⟨1, 1, "car", true, ⟨⟨0, 0⟩, ⟨1, 1⟩⟩, (0 : Nat), "e2"⟩,
    ⟨2, 1, "car", true, ⟨⟨0, 0⟩, ⟨1, 1⟩⟩, (0 : Nat), "e3"⟩,
    ⟨3, 1, "truck", true, ⟨⟨0, 0⟩, ⟨1, 1⟩⟩, (0 : Nat), "e4"⟩]
  best_image := (0 : Nat)
  best_image_coverage := 0
  is_model_track := true
  triggered_notification := false
  id := "w"

/-- Witness for claim C7: for events classified car, car, car, truck
the computed classification is a label of the track with maximal
count (in particular the count of "truck" does not exceed it). -/
theorem claim_C7_witness :
    carCarCarTruckTrack.classification ∈
      carCarCarTruckTrack.predictions.map (fun p => p.classification) ∧
    (carCarCarTruckTrack.predictions.map (fun p => p.classification)).count "truck" ≤
      (carCarCarTruckTrack.predictions.map (fun p => p.classification)).count
        carCarCarTruckTrack.classification :=
  ⟨(claim_C7 carCarCarTruckTrack (by simp [carCarCarTruckTrack])).1,
   (claim_C7 carCarCarTruckTrack (by simp [carCarCarTruckTrack])).2.1 "truck"
     (by simp [carCarCarTruckTrack])⟩

theorem add_prediction_is_model (tr : Track) (p : TrackPrediction) :
    (tr.add_prediction p).is_model_track = (tr.is_model_track || p.is_track) := rfl

theorem add_prediction_triggered (tr : Track) (p : TrackPrediction) :
    (tr.add_prediction p).triggered_notification = tr.triggered_notification := rfl

theorem from_prediction_id (p : TrackPrediction) :
    (Track.from_prediction p).id = p.id := rfl

theorem from_prediction_triggered (p : TrackPrediction) :
    (Track.from_prediction p).triggered_notification = false := rfl

theorem mkObjectNotification_id (enc : Image → Option (List Nat)) (tr : Track) :
    (mkObjectNotification enc tr).id = tr.id := rfl

theorem pruneTracks_mem {cfg : TrackerConfig} {now : ℚ} {s : List Track} {t : Track}
    (h : t ∈ pruneTracks cfg now s) : t ∈ s :=
  List.mem_of_mem_filter h

theorem trackerStep_ids {cfg : TrackerConfig} {cel : Option (Track → Bool)}
    {enc : Image → Option (List Nat)} {s : List Track} {p : TrackPrediction}
    {s2 : List Track} {o : Option ObjectNotification}
    (h : trackerStep cfg cel enc s p = .ok (s2, o)) :
    ∀ t2 ∈ s2, t2.id ∈ s.map Track.id ∨ t2.id = p.id := by
  obtain ⟨pre, post, u, hsrc, hout⟩ := trackerStep_cases h
  have hmemlive : ∀ x ∈ pre, x ∈ s ∧ (∀ y ∈ post, y ∈ s) := by
    intro x hx
    constructor
    · rcases hsrc with ⟨t0, hms, hu⟩ | ⟨hms, hpre, hpost, hu⟩
      · have hl := (matchSplit_ok_some hms).1
        exact pruneTracks_mem (hl ▸ List.mem_append_left _ hx)
      · exact pruneTracks_mem (hpre ▸ hx)
    · intro y hy
      rcases hsrc with ⟨t0, hms, hu⟩ | ⟨hms, hpre, hpost, hu⟩
      · have hl := (matchSplit_ok_some hms).1
        exact pruneTracks_mem
          (hl ▸ List.mem_append_right _ (List.mem_cons_of_mem _ hy))
      · rw [hpost] at hy
        simp at hy
  have hpres : ∀ x ∈ pre, x ∈ s := fun x hx => (hmemlive x hx).1
  have hposts : ∀ y ∈ post, y ∈ s := by
    rcases hpre2 : pre with _ | ⟨a, pre3⟩
    · intro y hy
      rcases hsrc with ⟨t0, hms, hu⟩ | ⟨hms, hpre, hpost, hu⟩
      · have hl := (matchSplit_ok_some hms).1
        subst hpre2
        exact pruneTracks_mem
          (hl ▸ List.mem_append_right _ (List.mem_cons_of_mem _ hy))
      · rw [hpost] at hy
        simp at hy
    · intro y hy
      exact (hmemlive a (hpre2 ▸ List.mem_cons_self _ _)).2 y hy
  have huid : u.id ∈ s.map Track.id ∨ u.id = p.id := by
    rcases hsrc with ⟨t0, hms, hu⟩ | ⟨hms, hpre, hpost, hu⟩
    · have hl := (matchSplit_ok_some hms).1
      have ht0 : t0 ∈ s :=
        pruneTracks_mem (hl ▸ List.mem_append_right _ (List.mem_cons_self _ _))
      left
      rw [hu, add_prediction_id]
      exact List.mem_map.mpr ⟨t0, ht0, rfl⟩
    · right
      rw [hu, from_prediction_id]
  intro t2 ht2
  have hshape : s2 = pre ++ u :: post ∨
      s2 = pre ++ { u with triggered_notification := true } :: post := by
    rcases hout with ⟨_, hs2, _⟩ | ⟨_, hs2, _, _, _⟩
    · exact Or.inl hs2
    · exact Or.inr hs2
  rcases hshape with hs2 | hs2 <;> rw [hs2] at ht2 <;>
    rcases List.mem_append.mp ht2 with hx | hx
  · exact Or.inl (List.mem_map.mpr ⟨t2, hpres t2 hx, rfl⟩)
  · rcases List.mem_cons.mp hx with he | hy
    · subst he
      exact huid
    · exact Or.inl (List.mem_map.mpr ⟨t2, hposts t2 hy, rfl⟩)
  · exact Or.inl (List.mem_map.mpr ⟨t2, hpres t2 hx, rfl⟩)
  · rcases List.mem_cons.mp hx with he | hy
    · subst he
      exact huid
    · exact Or.inl (List.mem_map.mpr ⟨t2, hposts t2 hy, rfl⟩)

theorem matchSplit_mem_s {cfg : TrackerConfig} {p : TrackPrediction} {s : List Track}
    {pre post : List Track} {t0 : Track}
    (hms : matchSplit cfg p (pruneTracks cfg p.t s) = .ok (some (pre, t0, post))) :
    (∀ x ∈ pre, x ∈ s) ∧ t0 ∈ s ∧ (∀ y ∈ post, y ∈ s) := by
  have hl := (matchSplit_ok_some hms).1
  refine ⟨?_, ?_, ?_⟩
  · intro x hx
    exact pruneTracks_mem (hl ▸ List.mem_append_left _ hx)
  · exact pruneTracks_mem (hl ▸ List.mem_append_right _ (List.mem_cons_self _ _))
  · intro y hy
    exact pruneTracks_mem (hl ▸ List.mem_append_right _ (List.mem_cons_of_mem _ hy))

theorem trackerStep_nodup {cfg : TrackerConfig} {cel : Option (Track → Bool)}
    {enc : Image → Option (List Nat)} {s : List Track} {p : TrackPrediction}
    {s2 : List Track} {o : Option ObjectNotification}
    (hnd : (s.map Track.id).Nodup) (hp : p.id ∉ s.map Track.id)
    (h : trackerStep cfg cel enc s p = .ok (s2, o)) :
    (s2.map Track.id).Nodup := by
  obtain ⟨pre, post, u, hsrc, hout⟩ := trackerStep_cases h
  have hlivesub : List.Sublist ((pruneTracks cfg p.t s).map Track.id)
      (s.map Track.id) :=
    List.Sublist.map _ (List.filter_sublist _)
  have hlivend : ((pruneTracks cfg p.t s).map Track.id).Nodup :=
    List.Nodup.sublist hlivesub hnd
  have hs2 : s2 = pre ++ u :: post ∨
      s2 = pre ++ { u with triggered_notification := true } :: post := by
    rcases hout with ⟨_, h2, _⟩ | ⟨_, h2, _, _, _⟩
    · exact Or.inl h2
    · exact Or.inr h2
  rcases hsrc with ⟨t0, hms, hu⟩ | ⟨hms, hpre, hpost, hu⟩
  · have hl := (matchSplit_ok_some hms).1
    have hmap : s2.map Track.id = (pruneTracks cfg p.t s).map Track.id := by
      rcases hs2 with h2 | h2 <;> rw [h2, hl] <;>
        simp [hu, add_prediction_id]
    rw [hmap]
    exact hlivend
  · have hpid : p.id ∉ (pruneTracks cfg p.t s).map Track.id := by
      intro hmem
      exact hp (hlivesub.subset hmem)
    have hmap : s2.map Track.id = (pruneTracks cfg p.t s).map Track.id ++ [p.id] := by
      rcases hs2 with h2 | h2 <;> rw [h2, hpre, hpost] <;>
        simp [hu, from_prediction_id]
    rw [hmap]
    simp [List.nodup_append, hlivend, hpid]

theorem trackerStep_mono {cfg : TrackerConfig} {cel : Option (Track → Bool)}
    {enc : Image → Option (List Nat)} {s : List Track} {p : TrackPrediction}
    {s2 : List Track} {o : Option ObjectNotification}
    (hnd : (s.map Track.id).Nodup) (hp : p.id ∉ s.map Track.id)
    (h : trackerStep cfg cel enc s p = .ok (s2, o)) :
    ∀ t ∈ s, ∀ t2 ∈ s2, t2.id = t.id →
      (t.is_model_track = true → t2.is_model_track = true) ∧
      (t.triggered_notification = true → t2.triggered_notification = true) := by
  obtain ⟨pre, post, u, hsrc, hout⟩ := trackerStep_cases h
  have inj := List.inj_on_of_nodup_map hnd
  have hs2 : s2 = pre ++ u :: post ∨
      s2 = pre ++ { u with triggered_notification := true } :: post := by
    rcases hout with ⟨_, h2, _⟩ | ⟨_, h2, _, _, _⟩
    · exact Or.inl h2
    · exact Or.inr h2
  intro t ht t2 ht2 hid
  rcases hsrc with ⟨t0, hms, hu⟩ | ⟨hms, hpre, hpost, hu⟩
  · obtain ⟨hprem, ht0m, hpostm⟩ := matchSplit_mem_s hms
    have hmain : ∀ t3 : Track, t3 = u ∨
        t3 = { u with triggered_notification := true } → t3.id = t.id →
        (t.is_model_track = true → t3.is_model_track = true) ∧
        (t.triggered_notification = true → t3.triggered_notification = true) := by
      intro t3 ht3 hid3
      have hids : t0.id = t.id := by
        rcases ht3 with he | he <;> rw [he] at hid3 <;>
          simpa [hu, add_prediction_id] using hid3
      have hteq : t = t0 := (inj ht0m ht hids).symm
      subst hteq
      rcases ht3 with he | he <;> rw [he] <;>
        simp [hu, add_prediction_is_model, add_prediction_triggered] <;>
        intro hh <;> simp [hh]
    rcases hs2 with h2 | h2 <;> rw [h2] at ht2 <;>
      rcases List.mem_append.mp ht2 with hx | hx
    · have hteq : t2 = t := inj (hprem t2 hx) ht hid
      subst hteq
      exact ⟨fun hh => hh, fun hh => hh⟩
    · rcases List.mem_cons.mp hx with he | hy
      · exact hmain t2 (Or.inl he) hid
      · have hteq : t2 = t := inj (hpostm t2 hy) ht hid
        subst hteq
        exact ⟨fun hh => hh, fun hh => hh⟩
    · have hteq : t2 = t := inj (hprem t2 hx) ht hid
      subst hteq
      exact ⟨fun hh => hh, fun hh => hh⟩
    · rcases List.mem_cons.mp hx with he | hy
      · exact hmain t2 (Or.inr he) hid
      · have hteq : t2 = t := inj (hpostm t2 hy) ht hid
        subst hteq
        exact ⟨fun hh => hh, fun hh => hh⟩
  · subst hpre
    subst hpost
    have habs : t.id ≠ p.id := by
      intro he
      exact hp (he ▸ List.mem_map.mpr ⟨t, ht, rfl⟩)
    rcases hs2 with h2 | h2 <;> rw [h2] at ht2 <;>
      rcases List.mem_append.mp ht2 with hx | hx
    · have hteq : t2 = t := inj (pruneTracks_mem hx) ht hid
      subst hteq
      exact ⟨fun hh => hh, fun hh => hh⟩
    · rcases List.mem_cons.mp hx with he | hy
      · exfalso
        apply habs
        rw [← hid, he]
        simp [hu, from_prediction_id]
      · simp at hy
    · have hteq : t2 = t := inj (pruneTracks_mem hx) ht hid
      subst hteq
      exact ⟨fun hh => hh, fun hh => hh⟩
    · rcases List.mem_cons.mp hx with he | hy
      · exfalso
        apply habs
        rw [← hid, he]
        simp [hu, from_prediction_id]
      · simp at hy

theorem trackerStep_emit {cfg : TrackerConfig} {cel : Option (Track → Bool)}
    {enc : Image → Option (List Nat)} {s : List Track} {p : TrackPrediction}
    {s2 : List Track} {o : Option ObjectNotification} {ob : ObjectNotification}
    (hnd : (s.map Track.id).Nodup) (hp : p.id ∉ s.map Track.id)
    (h : trackerStep cfg cel enc s p = .ok (s2, o)) (hob : o = some ob) :
    (∃ t2 ∈ s2, t2.id = ob.id ∧ t2.is_model_track = true ∧
      t2.triggered_notification = true) ∧
    (∀ t ∈ s, t.id = ob.id → t.triggered_notification = false) ∧
    (ob.id ∈ s.map Track.id ∨ ob.id = p.id) := by
  obtain ⟨pre, post, u, hsrc, hout⟩ := trackerStep_cases h
  have inj := List.inj_on_of_nodup_map hnd
  rcases hout with ⟨hnone, _, _⟩ | ⟨hsome, hs2, hmt, htr, hcr⟩
  · rw [hob] at hnone
    simp at hnone
  · have hobu : ob = mkObjectNotification enc u := by
      rw [hob] at hsome
      exact Option.some.inj hsome
    have hobid : ob.id = u.id := by
      rw [hobu, mkObjectNotification_id]
    refine ⟨⟨{ u with triggered_notification := true }, ?_, ?_, ?_, rfl⟩, ?_, ?_⟩
    · rw [hs2]
      exact List.mem_append_right _ (List.mem_cons_self _ _)
    · simp [hobid]
    · simp [hmt]
    · intro t ht hid
      rcases hsrc with ⟨t0, hms, hu⟩ | ⟨hms, hpre, hpost, hu⟩
      · obtain ⟨_, ht0m, _⟩ := matchSplit_mem_s hms
        have hid0 : t.id = t0.id := by
          rw [hid, hobid, hu, add_prediction_id]
        have hteq : t = t0 := inj ht ht0m hid0
        have hf := htr
        rw [hu, add_prediction_triggered] at hf
        rw [hteq]
        exact hf
      · exfalso
        have hpid : t.id = p.id := by
          rw [hid, hobid, hu, from_prediction_id]
        exact hp (hpid ▸ List.mem_map.mpr ⟨t, ht, rfl⟩)
    · rcases hsrc with ⟨t0, hms, hu⟩ | ⟨hms, hpre, hpost, hu⟩
      · obtain ⟨_, ht0m, _⟩ := matchSplit_mem_s hms
        left
        rw [hobid, hu, add_prediction_id]
        exact List.mem_map.mpr ⟨t0, ht0m, rfl⟩
      · right
        rw [hobid, hu, from_prediction_id]

theorem trackerRun_invariant {cfg : TrackerConfig} {cel : Option (Track → Bool)}
    {enc : Image → Option (List Nat)} :
    ∀ (ps : List TrackPrediction) (s : List Track),
    (s.map Track.id).Nodup →
    ((ps.map TrackPrediction.id).Nodup) →
    (∀ i ∈ ps.map TrackPrediction.id, i ∉ s.map Track.id) →
    (((trackerRun cfg cel enc s ps).2.map ObjectNotification.id).Nodup ∧
     ∀ ob ∈ (trackerRun cfg cel enc s ps).2,
       (ob.id ∈ s.map Track.id ∨ ob.id ∈ ps.map TrackPrediction.id) ∧
       (∀ t ∈ s, t.id = ob.id → t.triggered_notification = false)) := by
  intro ps
  induction ps with
  | nil =>
    intro s hnd hps hdisj
    simp [trackerRun]
  | cons p ps ih =>
    intro s hnd hps hdisj
    have hpid : p.id ∉ s.map Track.id := hdisj p.id (by simp)
    rcases hstep : trackerStep cfg cel enc s p with e | ⟨s', o⟩
    · constructor
      · simp [trackerRun, hstep]
      · intro ob hob
        simp [trackerRun, hstep] at hob
    · have hrun : trackerRun cfg cel enc s (p :: ps) =
          ((trackerRun cfg cel enc s' ps).1,
            o.toList ++ (trackerRun cfg cel enc s' ps).2) := by
        simp [trackerRun, hstep]
      have hnd' : (s'.map Track.id).Nodup := trackerStep_nodup hnd hpid hstep
      have hps2 : (p.id :: ps.map TrackPrediction.id).Nodup := by
        simpa using hps
      have hps' : (ps.map TrackPrediction.id).Nodup := hps2.of_cons
      have hpnotps : p.id ∉ ps.map TrackPrediction.id :=
        (List.nodup_cons.mp hps2).1
      have hdisj' : ∀ i ∈ ps.map TrackPrediction.id, i ∉ s'.map Track.id := by
        intro i hi hmem
        obtain ⟨t2, ht2, hid2⟩ := List.mem_map.mp hmem
        rcases trackerStep_ids hstep t2 ht2 with hin | hpe
        · exact hdisj i
            (by rw [List.map_cons]; exact List.mem_cons_of_mem _ hi)
            (hid2 ▸ hin)
        · rw [hpe] at hid2
          rw [← hid2] at hi
          exact hpnotps hi
      obtain ⟨ihnd, ihfacts⟩ := ih s' hnd' hps' hdisj'
      rw [hrun]
      dsimp only
      constructor
      · rcases o with _ | ob0
        · simpa using ihnd
        · simp only [Option.toList, List.singleton_append, List.map_cons]
          refine List.nodup_cons.mpr ⟨?_, ihnd⟩
          intro hmem
          obtain ⟨ob', hob', hideq⟩ := List.mem_map.mp hmem
          obtain ⟨⟨t2, ht2, ht2id, ht2m, ht2tr⟩, hsfalse, hsrcid⟩ :=
            trackerStep_emit hnd hpid hstep rfl
          have hf := (ihfacts ob' hob').2 t2 ht2 (ht2id.trans hideq.symm)
          rw [ht2tr] at hf
          simp at hf
      · intro ob hob
        rcases List.mem_append.mp hob with hhd | hrest
        · rcases o with _ | ob0
          · simp at hhd
          · simp at hhd
            subst hhd
            obtain ⟨hex, hsfalse, hsrcid⟩ :=
              trackerStep_emit hnd hpid hstep rfl
            refine ⟨?_, hsfalse⟩
            rcases hsrcid with hin | hpe
            · exact Or.inl hin
            · refine Or.inr ?_
              simp [hpe]
        · obtain ⟨hsrc', hfalse'⟩ := ihfacts ob hrest
          constructor
          · rcases hsrc' with hin' | hpsid
            · obtain ⟨t2, ht2, hid2⟩ := List.mem_map.mp hin'
              rcases trackerStep_ids hstep t2 ht2 with hin | hpe
              · exact Or.inl (hid2 ▸ hin)
              · refine Or.inr ?_
                rw [← hid2, hpe]
                simp
            · refine Or.inr ?_
              rw [List.map_cons]
              exact List.mem_cons_of_mem _ hpsid
          · intro t ht hid
            rcases hsrc' with hin' | hpsid
            · obtain ⟨t2, ht2, hid2⟩ := List.mem_map.mp hin'
              have hmono := trackerStep_mono hnd hpid hstep t ht t2 ht2
                (by rw [hid2, ← hid])
              have ht2f := hfalse' t2 ht2 hid2
              cases htb : t.triggered_notification
              · rfl
              · have := hmono.2 htb
                rw [ht2f] at this
                simp at this
            · exfalso
              exact hdisj ob.id
                (by rw [List.map_cons]; exact List.mem_cons_of_mem _ hpsid)
                (hid ▸ List.mem_map.mpr ⟨t, ht, rfl⟩)

/-- Claim C2: over any run of the association engine from an empty live set
on events with distinct ids, each track id appears at most once among the
emitted notification candidates; per step, the confirmed (is_model_track)
and notified (triggered_notification) flags never transition backward, and
a candidate is emitted only for a track that is confirmed afterwards and
whose prior incarnation (same id) was not yet notified. -/
theorem claim_C2 (cfg : TrackerConfig) (cel : Option (Track → Bool))
    (enc : Image → Option (List Nat)) (ps : List TrackPrediction)
    (hn : (ps.map TrackPrediction.id).Nodup) :
    ((trackerRun cfg cel enc [] ps).2.map ObjectNotification.id).Nodup ∧
    (∀ (s s2 : List Track) (p : TrackPrediction) (o : Option ObjectNotification),
      (s.map Track.id).Nodup → p.id ∉ s.map Track.id →
      trackerStep cfg cel enc s p = .ok (s2, o) →
      (∀ t ∈ s, ∀ t2 ∈ s2, t2.id = t.id →
        (t.is_model_track = true → t2.is_model_track = true) ∧
        (t.triggered_notification = true → t2.triggered_notification = true)) ∧
      (∀ ob, o = some ob →
        (∃ t2 ∈ s2, t2.id = ob.id ∧ t2.is_model_track = true ∧
          t2.triggered_notification = true) ∧
        (∀ t ∈ s, t.id = ob.id → t.triggered_notification = false))) := by
  constructor
  · exact (trackerRun_invariant ps [] (by simp) hn (by simp)).1
  · intro s s2 p o hnd hp h
    refine ⟨trackerStep_mono hnd hp h, ?_⟩
    intro ob hob
    obtain ⟨h1, h2, _⟩ := trackerStep_emit hnd hp h hob
    exact ⟨h1, h2⟩

def c2preds : List TrackPrediction :=
  [⟨0, 1, "car", true, ⟨⟨0, 0⟩, ⟨10, 10⟩⟩, (0 : Nat), "a"⟩,
   ⟨1/2, 1, "car", true, ⟨⟨0, 0⟩, ⟨10, 10⟩⟩, (0 : Nat), "b"⟩]

/-- Witness for claim C2: on a concrete two-event sequence with distinct
event ids the run from the empty live set emits notification candidates
with pairwise distinct track ids. -/
theorem claim_C2_witness :
    ((c2preds.map TrackPrediction.id).Nodup) ∧
    ((trackerRun ({} : TrackerConfig) none (fun _ => none) [] c2preds).2.map
        ObjectNotification.id).Nodup :=
  ⟨by decide,
   (claim_C2 ({} : TrackerConfig) none (fun _ => none) c2preds (by decide)).1⟩
